import Mathlib

/-!
Verification of the QUIC load-balancer-compatible CID codec
(`src/picoquic/picoquic_lb.c`).

The embedding models CID buffers as functions from octet index to octet
value (in-place mutation becomes function update), machine integers as
`Nat` with explicit `% 2 ^ 64` / `% 256` where the C code truncates, and
the AES-128-ECB primitive (external to the repository) as an abstract
function on 16-octet blocks, passed as a parameter.  Fallible code returns
`Except Unit`; the parser's out-of-bounds reads surface as `Except.error`.
-/

namespace PicoquicLb

/-- `UINT64_MAX`, the sentinel returned by the verifier. -/
def UINT64_MAX : Nat := 2 ^ 64 - 1

/-- Modelled from the spec: the method discriminant
`picoquic_load_balancer_cid_enum` is declared in `picoquic_lb.h`, which is
not under `src/`; per the spec the method is one of Clear, StreamCipher,
BlockCipher.  The extra constructor stands for any other value of the C
enum field and feeds the `default:` branches of the `switch` statements.
The C `memset(lb_config, 0, ...)` leaves the field at the first (zero)
enumerator, which is the Clear method. -/
inductive picoquic_load_balancer_cid_enum where
  | picoquic_load_balancer_cid_clear
  | picoquic_load_balancer_cid_stream_cipher
  | picoquic_load_balancer_cid_block_cipher
  | picoquic_load_balancer_cid_unknown
deriving DecidableEq

open picoquic_load_balancer_cid_enum

/-- Modelled from the spec: `picoquic_load_balancer_config_t` is declared
in `picoquic_lb.h` (not under `src/`); fields are the ones read and
written by `picoquic_lb.c`, with the semantic types of spec §3
(`uint8_t` lengths, `uint64_t` server id, 16-octet key). -/
structure picoquic_load_balancer_config_t where
  method : picoquic_load_balancer_cid_enum
  rotation_bits : Nat
  first_byte_encodes_length : Bool
  connection_id_length : Nat
  nonce_length : Nat
  server_id_length : Nat
  server_id64 : Nat
  cid_encryption_key : List Nat
deriving DecidableEq

/-- The all-zero configuration produced by `memset(lb_config, 0, sizeof(*lb_config))`. -/
def lb_config_zero : picoquic_load_balancer_config_t :=
  ⟨picoquic_load_balancer_cid_clear, 0, false, 0, 0, 0, 0, List.replicate 16 0⟩

/-- Modelled from the spec: `picoquic_load_balancer_cid_context_t` is
declared in `picoquic_lb.h` (not under `src/`); the same fields as the
config plus the serialised big-endian `server_id` octets.  The two AES
handle pointers are modelled as booleans recording whether the handle is
non-NULL; the AES transforms themselves are passed as explicit function
parameters to generation and verification. -/
structure picoquic_load_balancer_cid_context_t where
  method : picoquic_load_balancer_cid_enum
  rotation_bits : Nat
  first_byte_encodes_length : Bool
  connection_id_length : Nat
  nonce_length : Nat
  server_id_length : Nat
  server_id64 : Nat
  server_id : List Nat
  cid_encryption_context : Bool
  cid_decryption_context : Bool
deriving DecidableEq

/-- A connection ID: an octet-indexed buffer together with its length
(`picoquic_connection_id_t`, declared outside `src/`; modelled from the
spec as an octet array of `cid_length` octets plus the `id_len` field
tested by the verifier). -/
structure picoquic_connection_id_t where
  id : Nat → Nat
  id_len : Nat

/-- The fields of `picoquic_quic_t` that `picoquic_lb.c` reads or writes:
whether `cnx_list` is non-NULL, the local CID length, whether
`cnx_id_callback_fn` is non-NULL, and the callback context (the installed
load-balancer context, if any). -/
structure picoquic_quic_t where
  cnx_list_nonempty : Bool
  local_cnxid_length : Nat
  cnx_id_callback_fn : Bool
  cnx_id_callback_ctx : Option picoquic_load_balancer_cid_context_t
deriving DecidableEq

/-! ## Octet-buffer helpers -/

/-- Read `len` octets of `c` starting at `off` (the source of a `memcpy`). -/
def extractBytes (c : Nat → Nat) (off len : Nat) : List Nat :=
  (List.range len).map fun j => c (off + j)

/-- Overwrite `len` octets starting at `off` with the octets of `bs`
(the destination side of `memcpy(c + off, bs, len)`; a C array read past
the initialised part of the zeroed struct field yields 0, matching
`List.getD`). -/
def writeBytesLen (c : Nat → Nat) (off : Nat) (bs : List Nat) (len : Nat) : Nat → Nat :=
  fun i => if off ≤ i ∧ i < off + len then bs.getD (i - off) 0 else c i

/-- The 16-octet block built by `memset(mask, 0, 16); memcpy(mask, nonce, n)`. -/
def pad16 (xs : List Nat) : List Nat :=
  xs.take 16 ++ List.replicate (16 - xs.length) 0

/-! ## CID generation (`picoquic_lb_compat_cid_generate` and helpers) -/

/-- `picoquic_lb_compat_cid_one_pass_stream`: build a zero-padded 16-octet
block from the `nonce_length` octets at `nonce_off`, AES-ECB encrypt it,
and XOR the first `target_length` octets of the result into the buffer at
`target_off`. -/
def picoquic_lb_compat_cid_one_pass_stream (enc : List Nat → List Nat) (c : Nat → Nat)
    (nonce_off nonce_length target_off target_length : Nat) : Nat → Nat :=
  fun i =>
    if target_off ≤ i ∧ i < target_off + target_length then
      c i ^^^ (enc (pad16 (extractBytes c nonce_off nonce_length))).getD (i - target_off) 0
    else c i

/-- `picoquic_lb_compat_cid_generate_first_byte`: octet 0 takes the
rotation bits in its top two bits and, if `first_byte_encodes_length`,
`local_cnxid_length - 1` (else the caller's low six bits) below them.
The casts to `uint8_t` are the explicit `% 256`; `(uint8_t)len - 1` for a
`uint8_t` length is `(len + 255) % 256`. -/
def picoquic_lb_compat_cid_generate_first_byte (local_cnxid_length : Nat)
    (lb_ctx : picoquic_load_balancer_cid_context_t) (c : Nat → Nat) : Nat → Nat :=
  fun i =>
    if i = 0 then
      if lb_ctx.first_byte_encodes_length then
        (((lb_ctx.rotation_bits % 256) <<< 6) ||| ((local_cnxid_length + 255) % 256)) % 256
      else
        ((c 0 &&& 63) ||| ((lb_ctx.rotation_bits % 256) <<< 6)) % 256
    else c i

/-- `picoquic_lb_compat_cid_generate_clear`: first octet, then copy the
server-id octets at offset 1. -/
def picoquic_lb_compat_cid_generate_clear (local_cnxid_length : Nat)
    (lb_ctx : picoquic_load_balancer_cid_context_t) (c : Nat → Nat) : Nat → Nat :=
  writeBytesLen (picoquic_lb_compat_cid_generate_first_byte local_cnxid_length lb_ctx c)
    1 lb_ctx.server_id lb_ctx.server_id_length

/-- The three-pass masking sequence shared verbatim by
`picoquic_lb_compat_cid_generate_stream_cipher` and
`picoquic_lb_compat_cid_verify_stream_cipher`: nonce region keys the
server-id mask, then server-id region keys the nonce mask, then the nonce
region keys the server-id mask again, all with the encryption handle. -/
def lb_three_pass (enc : List Nat → List Nat) (nonce_length server_id_length : Nat)
    (c : Nat → Nat) : Nat → Nat :=
  let id_offset := 1 + nonce_length
  let c1 := picoquic_lb_compat_cid_one_pass_stream enc c 1 nonce_length id_offset server_id_length
  let c2 := picoquic_lb_compat_cid_one_pass_stream enc c1 id_offset server_id_length 1 nonce_length
  picoquic_lb_compat_cid_one_pass_stream enc c2 1 nonce_length id_offset server_id_length

/-- `picoquic_lb_compat_cid_generate_stream_cipher`: first octet, copy the
clear-text server id at `id_offset = 1 + nonce_length`, then the three
one-pass masks. -/
def picoquic_lb_compat_cid_generate_stream_cipher (enc : List Nat → List Nat)
    (local_cnxid_length : Nat) (lb_ctx : picoquic_load_balancer_cid_context_t)
    (c : Nat → Nat) : Nat → Nat :=
  lb_three_pass enc lb_ctx.nonce_length lb_ctx.server_id_length
    (writeBytesLen (picoquic_lb_compat_cid_generate_first_byte local_cnxid_length lb_ctx c)
      (1 + lb_ctx.nonce_length) lb_ctx.server_id lb_ctx.server_id_length)

/-- `picoquic_lb_compat_cid_generate_block_cipher`: first octet, copy the
server id at offset 1, then AES-ECB encrypt octets 1..17 in place. -/
def picoquic_lb_compat_cid_generate_block_cipher (enc : List Nat → List Nat)
    (local_cnxid_length : Nat) (lb_ctx : picoquic_load_balancer_cid_context_t)
    (c : Nat → Nat) : Nat → Nat :=
  let c1 := writeBytesLen (picoquic_lb_compat_cid_generate_first_byte local_cnxid_length lb_ctx c)
    1 lb_ctx.server_id lb_ctx.server_id_length
  writeBytesLen c1 1 (enc (extractBytes c1 1 16)) 16

/-- `picoquic_lb_compat_cid_generate`: dispatch on the configured method;
the unknown-method default leaves the pre-filled CID unchanged.  The
`cnx_id_local` / `cnx_id_remote` arguments of the C callback are unused by
the codec and omitted.  `enc` is the AES-128-ECB encryption transform held
by `lb_ctx->cid_encryption_context`. -/
def picoquic_lb_compat_cid_generate (enc : List Nat → List Nat) (local_cnxid_length : Nat)
    (lb_ctx : picoquic_load_balancer_cid_context_t) (cnx_id_returned : picoquic_connection_id_t) :
    picoquic_connection_id_t :=
  { id_len := cnx_id_returned.id_len
    id :=
      match lb_ctx.method with
      | picoquic_load_balancer_cid_clear =>
          picoquic_lb_compat_cid_generate_clear local_cnxid_length lb_ctx cnx_id_returned.id
      | picoquic_load_balancer_cid_stream_cipher =>
          picoquic_lb_compat_cid_generate_stream_cipher enc local_cnxid_length lb_ctx cnx_id_returned.id
      | picoquic_load_balancer_cid_block_cipher =>
          picoquic_lb_compat_cid_generate_block_cipher enc local_cnxid_length lb_ctx cnx_id_returned.id
      | picoquic_load_balancer_cid_unknown => cnx_id_returned.id }

/-! ## CID verification (`picoquic_lb_compat_cid_verify` and helpers) -/

/-- The big-endian server-id reassembly loop
(`s_id64 <<= 8; s_id64 += byte` on a `uint64_t`). -/
def lb_sid_decode (bs : List Nat) : Nat :=
  bs.foldl (fun a b => (a * 256 + b) % 2 ^ 64) 0

/-- `picoquic_lb_compat_cid_verify_clear`: reassemble the server id from
octets 1 .. 1+server_id_length. -/
def picoquic_lb_compat_cid_verify_clear (lb_ctx : picoquic_load_balancer_cid_context_t)
    (cnx_id : picoquic_connection_id_t) : Nat :=
  lb_sid_decode (extractBytes cnx_id.id 1 lb_ctx.server_id_length)

/-- `picoquic_lb_compat_cid_verify_stream_cipher`: apply the same three
one-pass masks to a copy of the CID (with the encryption handle), then
reassemble the server id at `id_offset`. -/
def picoquic_lb_compat_cid_verify_stream_cipher (enc : List Nat → List Nat)
    (lb_ctx : picoquic_load_balancer_cid_context_t) (cnx_id : picoquic_connection_id_t) : Nat :=
  lb_sid_decode
    (extractBytes (lb_three_pass enc lb_ctx.nonce_length lb_ctx.server_id_length cnx_id.id)
      (1 + lb_ctx.nonce_length) lb_ctx.server_id_length)

/-- `picoquic_lb_compat_cid_verify_block_cipher`, translated faithfully:
decrypt octets 1..17 into a scratch buffer, then — under the (always true)
guard `s_id64 == 0` on the locally zero-initialised accumulator —
reassemble the server id from the first `server_id_length` decrypted
octets.  `dec` is the AES-128-ECB decryption transform held by
`lb_ctx->cid_decryption_context`. -/
def picoquic_lb_compat_cid_verify_block_cipher (dec : List Nat → List Nat)
    (lb_ctx : picoquic_load_balancer_cid_context_t) (cnx_id : picoquic_connection_id_t) : Nat :=
  let decoded := dec (extractBytes cnx_id.id 1 16)
  let s_id64 : Nat := 0
  if s_id64 = 0 then
    (List.range lb_ctx.server_id_length).foldl (fun a j => (a * 256 + decoded.getD j 0) % 2 ^ 64) s_id64
  else s_id64

/-- The unconditional reassembly: `picoquic_lb_compat_cid_verify_block_cipher`
with the dead `s_id64 == 0` guard removed. -/
def lb_verify_block_cipher_unconditional (dec : List Nat → List Nat)
    (lb_ctx : picoquic_load_balancer_cid_context_t) (cnx_id : picoquic_connection_id_t) : Nat :=
  let decoded := dec (extractBytes cnx_id.id 1 16)
  (List.range lb_ctx.server_id_length).foldl (fun a j => (a * 256 + decoded.getD j 0) % 2 ^ 64) 0

/-- `picoquic_lb_compat_cid_verify`: `UINT64_MAX` on a CID length
mismatch, otherwise dispatch on the method (unknown method also yields
`UINT64_MAX`). -/
def picoquic_lb_compat_cid_verify (enc dec : List Nat → List Nat)
    (lb_ctx : picoquic_load_balancer_cid_context_t) (cnx_id : picoquic_connection_id_t) : Nat :=
  if cnx_id.id_len ≠ lb_ctx.connection_id_length then UINT64_MAX
  else
    match lb_ctx.method with
    | picoquic_load_balancer_cid_clear => picoquic_lb_compat_cid_verify_clear lb_ctx cnx_id
    | picoquic_load_balancer_cid_stream_cipher =>
        picoquic_lb_compat_cid_verify_stream_cipher enc lb_ctx cnx_id
    | picoquic_load_balancer_cid_block_cipher =>
        picoquic_lb_compat_cid_verify_block_cipher dec lb_ctx cnx_id
    | picoquic_load_balancer_cid_unknown => UINT64_MAX

/-! ## Configuration parsing (`picoquic_lb_compat_cid_config_parse`)

The C parser walks a `char const* txt` of length `txt_length`.  The
embedding receives the text as a partial lookup `Nat → Option Char`;
a read at an index where the lookup is `none` is an out-of-bounds access
and surfaces as `Except.error ()`.  The loops recurse on explicit fuel,
always invoked with `len - parsed`, which is an upper bound on the number
of remaining iterations, so the fuel never runs out before the loop's own
exit condition. -/

/-- A single `txt[i]` read; `Except.error ()` is an out-of-bounds access. -/
def lb_read_char (txt : Nat → Option Char) (i : Nat) : Except Unit Char :=
  match txt i with
  | some c => .ok c
  | none => .error ()

/-- The decimal scanning loop used for both `<cid_len>` and `<nonce_len>`:
`while (parsed < txt_length && isdigit(txt[parsed])) { acc = acc*10 + digit;
parsed++; if (acc < 256) stored = acc; else { ret = -1; break; } }`.
Returns `(parsed, acc, stored, ret)`. -/
def lb_scan_decimal (txt : Nat → Option Char) (len : Nat) :
    Nat → Nat → Nat → Nat → Int → Except Unit (Nat × Nat × Nat × Int)
  | 0, parsed, acc, stored, ret => pure (parsed, acc, stored, ret)
  | fuel + 1, parsed, acc, stored, ret =>
    if parsed < len then do
      let c ← lb_read_char txt parsed
      if '0' ≤ c ∧ c ≤ '9' then
        if acc * 10 + (c.toNat - 48) < 256 then
          lb_scan_decimal txt len fuel (parsed + 1) (acc * 10 + (c.toNat - 48))
            (acc * 10 + (c.toNat - 48)) ret
        else pure (parsed + 1, acc * 10 + (c.toNat - 48), stored, -1)
      else pure (parsed, acc, stored, ret)
    else pure (parsed, acc, stored, ret)

/-- The hex-length scan:
`while (parsed + hex_length < txt_length && txt[parsed + hex_length] != '-') hex_length++;`. -/
def lb_hex_scan_len (txt : Nat → Option Char) (len start : Nat) :
    Nat → Nat → Except Unit Nat
  | 0, hl => pure hl
  | fuel + 1, hl =>
    if start + hl < len then do
      let c ← lb_read_char txt (start + hl)
      if c ≠ '-' then lb_hex_scan_len txt len start fuel (hl + 1)
      else pure hl
    else pure hl

/-- Value of a hex digit, or `none` for a non-hex character. -/
def lb_hex_digit (c : Char) : Option Nat :=
  if '0' ≤ c ∧ c ≤ '9' then some (c.toNat - 48)
  else if 'a' ≤ c ∧ c ≤ 'f' then some (c.toNat - 87)
  else if 'A' ≤ c ∧ c ≤ 'F' then some (c.toNat - 55)
  else none

/-- Scan `fuel` pairs of hex digits starting at index `i`, accumulating
octets; `none` on the first non-hex character. -/
def lb_hex_pairs (txt : Nat → Option Char) :
    Nat → Nat → List Nat → Except Unit (Option (List Nat))
  | 0, _, acc => pure (some acc.reverse)
  | fuel + 1, i, acc => do
    let c1 ← lb_read_char txt i
    let c2 ← lb_read_char txt (i + 1)
    match lb_hex_digit c1, lb_hex_digit c2 with
    | some a, some b => lb_hex_pairs txt fuel (i + 2) ((a * 16 + b) :: acc)
    | _, _ => pure none

/-- Modelled from the spec: `picoquic_parse_hexa` lives in
`picoquic_utils.c`, which is not under `src/`.  Per §4.2 it turns
`input_length` hex characters at `txt + start` into at most `output_max`
octets, returning the octet count, with 0 on any violation (empty or odd
nibble count, more than `2 * output_max` nibbles, non-hex character);
`none` models the 0 return. -/
def picoquic_parse_hexa (txt : Nat → Option Char) (start len output_max : Nat) :
    Except Unit (Option (List Nat)) :=
  if len = 0 ∨ len % 2 = 1 ∨ len / 2 > output_max then pure none
  else lb_hex_pairs txt (len / 2) start []

/-- Parser state between stages: `(parsed, ret, lb_config)`. -/
abbrev LbParseSt := Nat × Int × picoquic_load_balancer_config_t

/-- Lines 282-318 of the parser: the method letter (with the decimal
nonce-length scan after `S`/`s`), guarded by `parsed >= txt_length` and by
a previously recorded failure.  Returns `(parsed, lb_config, ret)`. -/
def lb_parse_method (txt : Nat → Option Char) (len parsed : Nat)
    (cfg : picoquic_load_balancer_config_t) (ret : Int) :
    Except Unit (Nat × picoquic_load_balancer_config_t × Int) :=
  if len ≤ parsed then pure (parsed, cfg, (-1 : Int))
  else if ret = 0 then do
    let c ← lb_read_char txt parsed
    if c = 'c' ∨ c = 'C' then
      pure (parsed + 1, { cfg with method := picoquic_load_balancer_cid_clear }, ret)
    else if c = 's' ∨ c = 'S' then do
      let (parsed2, _, nstored, ret2) ←
        lb_scan_decimal txt len (len - (parsed + 1)) (parsed + 1) 0 0 ret
      pure (parsed2,
        { cfg with method := picoquic_load_balancer_cid_stream_cipher, nonce_length := nstored },
        ret2)
    else if c = 'b' ∨ c = 'B' then
      pure (parsed + 1, { cfg with method := picoquic_load_balancer_cid_block_cipher }, ret)
    else pure (parsed + 1, cfg, (-1 : Int))
  else pure (parsed, cfg, ret)

/-- Lines 252-258 of the parser: the rotation digit; any character
outside `0`..`3` records failure. -/
def lb_parse_rot (c0 : Char) : Int × picoquic_load_balancer_config_t :=
  if '0' ≤ c0 ∧ c0 ≤ '3' then
    (0, { lb_config_zero with rotation_bits := c0.toNat - 48 })
  else (-1, lb_config_zero)

/-- Lines 259-265: the length-encoding letter; `Y`/`y` sets the flag, a
letter that is neither `Y`/`y` nor `N`/`n` records failure. -/
def lb_parse_flags (c0 c1 : Char) : Int × picoquic_load_balancer_config_t :=
  if c1 = 'Y' ∨ c1 = 'y' then
    ((lb_parse_rot c0).1, { (lb_parse_rot c0).2 with first_byte_encodes_length := true })
  else if c1 ≠ 'N' ∧ c1 ≠ 'n' then (-1, (lb_parse_rot c0).2)
  else lb_parse_rot c0

/-- Lines 266-325 after the two flag characters: decimal CID length,
method letter (with nonce length), and the first (unguarded) hyphen
check. -/
def lb_parse_head_rest (txt : Nat → Option Char) (len : Nat) (ret : Int)
    (cfg : picoquic_load_balancer_config_t) : Except Unit LbParseSt := do
  let (parsed, _, stored, ret) ← lb_scan_decimal txt len (len - 2) 2 0 0 ret
  let (parsed, cfg, ret) ←
    lb_parse_method txt len parsed { cfg with connection_id_length := stored } ret
  let ch ← lb_read_char txt parsed
  if ch = '-' then pure (parsed + 1, ret, cfg) else pure (parsed, (-1 : Int), cfg)

/-- Lines 252-325 of the parser: rotation digit, length-encoding letter,
decimal CID length, method letter with optional decimal nonce length, and
the first (unguarded) hyphen check. -/
def lb_parse_head (txt : Nat → Option Char) (len : Nat) : Except Unit LbParseSt := do
  let c0 ← lb_read_char txt 0
  let c1 ← lb_read_char txt 1
  lb_parse_head_rest txt len (lb_parse_flags c0 c1).1 (lb_parse_flags c0 c1).2

/-- Lines 327-349: the `txt_length <= parsed` guard and the server-id hex
field (`s_id_len == 0 || s_id_len > 255` yields `ret = 1`; on success the
octets are folded big-endian into `server_id64` with `<<= 8` / `|=` on a
`uint64_t`). -/
def lb_parse_sid (txt : Nat → Option Char) (len : Nat) :
    LbParseSt → Except Unit LbParseSt
  | (parsed, ret, cfg) =>
    if len ≤ parsed then pure (parsed, -1, cfg)
    else if ret = 0 then do
      let hexLen ← lb_hex_scan_len txt len parsed (len - parsed) 0
      let sid? ← picoquic_parse_hexa txt parsed hexLen 8
      match sid? with
      | none => pure (parsed, (1 : Int), cfg)
      | some bs =>
        if bs.length = 0 ∨ bs.length > 255 then pure (parsed + 2 * bs.length, (1 : Int), cfg)
        else
          pure (parsed + 2 * bs.length, ret,
            { cfg with
              server_id_length := bs.length
              server_id64 := bs.foldl (fun a b => ((a <<< 8) % 2 ^ 64) ||| b) cfg.server_id64 })
    else pure (parsed, ret, cfg)

/-- Lines 350-373: for stream- and block-cipher methods, the second
(unguarded) hyphen check and the 32-nibble key field. -/
def lb_parse_key (txt : Nat → Option Char) (len : Nat) :
    LbParseSt → Except Unit LbParseSt
  | (parsed, ret, cfg) =>
    if ret = 0 ∧ (cfg.method = picoquic_load_balancer_cid_stream_cipher ∨
        cfg.method = picoquic_load_balancer_cid_block_cipher) then do
      let ch ← lb_read_char txt parsed
      if ch = '-' then
        -- hyphen found: parsed is advanced, ret stays 0, the key field follows
        if len < parsed + 1 + 32 then pure (parsed + 1, (-1 : Int), cfg)
        else do
          let key? ← picoquic_parse_hexa txt (parsed + 1) (len - (parsed + 1)) 16
          match key? with
          | none => pure (parsed + 1, (-1 : Int), cfg)
          | some kb =>
            if kb.length = 16 then
              pure (parsed + 1 + 2 * kb.length, ret, { cfg with cid_encryption_key := kb })
            else pure (parsed + 1 + 2 * kb.length, (-1 : Int), cfg)
      else pure (parsed, (-1 : Int), cfg)
    else pure (parsed, ret, cfg)

/-- Line 374: the trailing-character check (`parsed != txt_length`). -/
def lb_parse_check_trailing (len parsed : Nat) (ret : Int) : Int :=
  if ret = 0 ∧ parsed ≠ len then -1 else ret

/-- Lines 378-384: for a non-zero CID length, the minimum-length
invariants. -/
def lb_parse_check_lengths (cfg : picoquic_load_balancer_config_t) (ret : Int) : Int :=
  if ret = 0 ∧ cfg.connection_id_length ≠ 0 then
    if cfg.connection_id_length < 1 + cfg.server_id_length + cfg.nonce_length ∨
        (cfg.method = picoquic_load_balancer_cid_block_cipher ∧ cfg.connection_id_length < 17)
    then -1 else ret
  else ret

/-- Lines 374-385: trailing-character check and, for a non-zero CID
length, the minimum-length invariants. -/
def lb_parse_tail (len : Nat) : LbParseSt → Int × picoquic_load_balancer_config_t
  | (parsed, ret, cfg) => (lb_parse_check_lengths cfg (lb_parse_check_trailing len parsed ret), cfg)

/-- `picoquic_lb_compat_cid_config_parse`.  When `txt_length < 4` every
later stage is a no-op on the already failed state, so the function
returns `-1` with the zeroed config without reading the text. -/
def picoquic_lb_compat_cid_config_parse (txt : Nat → Option Char) (len : Nat) :
    Except Unit (Int × picoquic_load_balancer_config_t) :=
  if len < 4 then pure (-1, lb_config_zero)
  else do
    let st ← lb_parse_head txt len
    let st ← lb_parse_sid txt len st
    let st ← lb_parse_key txt len st
    pure (lb_parse_tail len st)

/-- Parse a concrete character list (the C caller passes a NUL-terminated
string and its length; indices beyond the list are out of bounds). -/
def lb_parse_chars (l : List Char) : Except Unit (Int × picoquic_load_balancer_config_t) :=
  picoquic_lb_compat_cid_config_parse (fun i => l.get? i) l.length

/-- The `ret` component of a parse outcome, `none` on an out-of-bounds read. -/
def lb_parse_ret (e : Except Unit (Int × picoquic_load_balancer_config_t)) : Option Int :=
  match e with
  | .ok (r, _) => some r
  | .error _ => none

/-- The config component of a parse outcome. -/
def lb_parse_cfg (e : Except Unit (Int × picoquic_load_balancer_config_t)) :
    Option picoquic_load_balancer_config_t :=
  match e with
  | .ok (_, c) => some c
  | .error _ => none

/-! ## Installation (`picoquic_lb_compat_cid_config`) -/

/-- Modelled from the spec: `PICOQUIC_CONNECTION_ID_MAX_SIZE` is defined
in a header outside `src/`; spec §3 gives the QUIC maximum CID length. -/
def PICOQUIC_CONNECTION_ID_MAX_SIZE : Nat := 20

/-- The big-endian serialisation loop of `picoquic_lb_compat_cid_config`:
`for i: j = len-1-i; server_id[j] = (uint8_t)s; s >>= 8` writes octet `j`
as `s64 / 256 ^ (len - 1 - j) % 256`. -/
def lb_encode_server_id (s64 len : Nat) : List Nat :=
  (List.range len).map fun j => s64 / 256 ^ (len - 1 - j) % 256

/-- The context record built (on success) by `picoquic_lb_compat_cid_config`
from a validated configuration. -/
def lb_cid_ctx_of_config (cfg : picoquic_load_balancer_config_t) :
    picoquic_load_balancer_cid_context_t :=
  { method := cfg.method
    rotation_bits := cfg.rotation_bits
    first_byte_encodes_length := cfg.first_byte_encodes_length
    connection_id_length := cfg.connection_id_length
    nonce_length := cfg.nonce_length
    server_id_length := cfg.server_id_length
    server_id64 := cfg.server_id64
    server_id := lb_encode_server_id cfg.server_id64 cfg.server_id_length
    cid_encryption_context := cfg.method = picoquic_load_balancer_cid_stream_cipher ∨
      cfg.method = picoquic_load_balancer_cid_block_cipher
    cid_decryption_context := cfg.method = picoquic_load_balancer_cid_block_cipher }

/-- Outcome of `picoquic_lb_compat_cid_config`: the return code, the host
state on return, and which of the three heap allocations (the context
copy, the AES encryption handle, the AES decryption handle) are still
allocated when the function returns. -/
structure lb_install_result where
  ret : Int
  quic : picoquic_quic_t
  ctx_alloc_live : Bool
  enc_ctx_live : Bool
  dec_ctx_live : Bool
deriving DecidableEq

/-- Lines 403-434 of `picoquic_lb_compat_cid_config`: the maximum-size
check and the per-method `switch` validating the lengths. -/
def lb_config_validate (lb_config : picoquic_load_balancer_config_t) : Int :=
  if lb_config.connection_id_length > PICOQUIC_CONNECTION_ID_MAX_SIZE then -1
  else
    match lb_config.method with
    | picoquic_load_balancer_cid_clear =>
        if lb_config.server_id_length + 1 > lb_config.connection_id_length then -1 else 0
    | picoquic_load_balancer_cid_stream_cipher =>
        if lb_config.nonce_length < 8 ∨ lb_config.nonce_length > 16 ∨
            lb_config.nonce_length + lb_config.server_id_length + 1 >
              lb_config.connection_id_length then -1 else 0
    | picoquic_load_balancer_cid_block_cipher =>
        if lb_config.connection_id_length < 17 ∨ lb_config.server_id_length > 15 then -1
        else 0
    | picoquic_load_balancer_cid_unknown => -1

/-- `picoquic_lb_compat_cid_config`.  `malloc_ok`, `enc_create_ok` and
`dec_create_ok` are oracles for the fallible `malloc` and the two
`picoquic_aes128_ecb_create` calls. -/
def picoquic_lb_compat_cid_config (quic : picoquic_quic_t)
    (lb_config : picoquic_load_balancer_config_t)
    (malloc_ok enc_create_ok dec_create_ok : Bool) : lb_install_result :=
  if quic.cnx_list_nonempty ∧ quic.local_cnxid_length ≠ lb_config.connection_id_length then
    ⟨-1, quic, false, false, false⟩
  else if quic.cnx_id_callback_fn ∧ quic.cnx_id_callback_ctx.isSome then
    ⟨-1, quic, false, false, false⟩
  else
    if lb_config_validate lb_config ≠ 0 then ⟨lb_config_validate lb_config, quic, false, false, false⟩
    else if ¬malloc_ok then ⟨-1, quic, false, false, false⟩
    else
      -- the copy is allocated; serialise the server id and check it fits
      if lb_config.server_id64 / 256 ^ lb_config.server_id_length ≠ 0 then
        ⟨-1, quic, false, false, false⟩   -- free(lb_ctx)
      else if lb_config.method = picoquic_load_balancer_cid_stream_cipher ∨
          lb_config.method = picoquic_load_balancer_cid_block_cipher then
        if ¬enc_create_ok then ⟨-1, quic, false, false, false⟩   -- free(lb_ctx)
        else if lb_config.method = picoquic_load_balancer_cid_block_cipher then
          if ¬dec_create_ok then
            ⟨-1, quic, false, false, false⟩   -- aes128_ecb_free(enc); free(lb_ctx)
          else
            ⟨0, { quic with
                    local_cnxid_length := lb_config.connection_id_length
                    cnx_id_callback_fn := true
                    cnx_id_callback_ctx := some (lb_cid_ctx_of_config lb_config) },
              true, true, true⟩
        else
          ⟨0, { quic with
                  local_cnxid_length := lb_config.connection_id_length
                  cnx_id_callback_fn := true
                  cnx_id_callback_ctx := some (lb_cid_ctx_of_config lb_config) },
            true, true, false⟩
      else
        ⟨0, { quic with
                local_cnxid_length := lb_config.connection_id_length
                cnx_id_callback_fn := true
                cnx_id_callback_ctx := some (lb_cid_ctx_of_config lb_config) },
          true, false, false⟩

/-! ## Concrete instances used to exercise the code -/

/-- The identity permutation on 16-octet blocks (a legitimate AES model:
encryption and decryption are mutually inverse). -/
def lb_id_perm : List Nat → List Nat := fun bs => bs

/-- A host with no connections, an 8-octet local CID length, and no CID
callback installed. -/
def lb_quic_fresh : picoquic_quic_t := ⟨false, 8, false, none⟩

/-- A Clear-method configuration: 5-octet CID, 1-octet server id 42. -/
def lb_cfg_clear5 : picoquic_load_balancer_config_t :=
  ⟨picoquic_load_balancer_cid_clear, 0, false, 5, 0, 1, 42, List.replicate 16 0⟩

/-- A Clear-method configuration whose 8 server-id octets are all `0xFF`:
9-octet CID, server id `2 ^ 64 - 1`. -/
def lb_cfg_all_ff : picoquic_load_balancer_config_t :=
  ⟨picoquic_load_balancer_cid_clear, 0, false, 9, 0, 8, 2 ^ 64 - 1, List.replicate 16 0⟩

/-- A 9-octet CID whose octets are all `0xFF`. -/
def lb_cid_all_ff : picoquic_connection_id_t := ⟨fun _ => 255, 9⟩

/-- A StreamCipher configuration: 20-octet CID, 12-octet nonce, 2-octet
server id `0x1234`. -/
def lb_cfg_stream_test : picoquic_load_balancer_config_t :=
  ⟨picoquic_load_balancer_cid_stream_cipher, 0, false, 20, 12, 2, 4660, List.replicate 16 0⟩

/-- A Clear-method configuration with `connection_id_length = 0`
(the "inherit from host" encoding of the parser's comment). -/
def lb_cfg_zero_cid : picoquic_load_balancer_config_t :=
  ⟨picoquic_load_balancer_cid_clear, 0, false, 0, 0, 1, 42, List.replicate 16 0⟩

/-- A deterministic pre-filled CID buffer of length `n`. -/
def lb_cid_ramp (n : Nat) : picoquic_connection_id_t := ⟨fun i => (3 * i + 5) % 256, n⟩

/-! ## General lemmas about the octet-buffer operations -/

theorem lb_except_bind_ok {α β : Type} {e : Except Unit α} {f : α → Except Unit β} {b : β}
    (h : (e >>= f) = .ok b) : ∃ a, e = .ok a ∧ f a = .ok b := by
  cases e with
  | ok a => exact ⟨a, rfl, h⟩
  | error u => exact absurd h (by simp [Bind.bind, Except.bind])

theorem writeBytesLen_out {c : Nat → Nat} {off : Nat} {bs : List Nat} {len i : Nat}
    (h : ¬(off ≤ i ∧ i < off + len)) : writeBytesLen c off bs len i = c i := if_neg h

theorem writeBytesLen_in {c : Nat → Nat} {off : Nat} {bs : List Nat} {len i : Nat}
    (h1 : off ≤ i) (h2 : i < off + len) :
    writeBytesLen c off bs len i = bs.getD (i - off) 0 := if_pos ⟨h1, h2⟩

theorem one_pass_out {enc : List Nat → List Nat} {c : Nat → Nat}
    {nonce_off nonce_length target_off target_length i : Nat}
    (h : ¬(target_off ≤ i ∧ i < target_off + target_length)) :
    picoquic_lb_compat_cid_one_pass_stream enc c nonce_off nonce_length target_off target_length i
      = c i := if_neg h

theorem one_pass_in {enc : List Nat → List Nat} {c : Nat → Nat}
    {nonce_off nonce_length target_off target_length i : Nat}
    (h1 : target_off ≤ i) (h2 : i < target_off + target_length) :
    picoquic_lb_compat_cid_one_pass_stream enc c nonce_off nonce_length target_off target_length i
      = c i ^^^ (enc (pad16 (extractBytes c nonce_off nonce_length))).getD (i - target_off) 0 :=
  if_pos ⟨h1, h2⟩

theorem extractBytes_congr {c1 c2 : Nat → Nat} {off len : Nat}
    (h : ∀ i, off ≤ i → i < off + len → c1 i = c2 i) :
    extractBytes c1 off len = extractBytes c2 off len := by
  unfold extractBytes
  apply List.map_congr_left
  intro j hj
  exact h (off + j) (Nat.le_add_right _ _) (by
    have := List.mem_range.mp hj
    omega)

theorem extract_one_pass_disjoint {enc : List Nat → List Nat} {c : Nat → Nat}
    {nonce_off nonce_length target_off target_length off len : Nat}
    (hd : off + len ≤ target_off ∨ target_off + target_length ≤ off) :
    extractBytes
      (picoquic_lb_compat_cid_one_pass_stream enc c nonce_off nonce_length target_off target_length)
      off len = extractBytes c off len :=
  extractBytes_congr fun i h1 h2 => one_pass_out (by omega)

theorem one_pass_invol {enc : List Nat → List Nat} {c : Nat → Nat}
    {nonce_off nonce_length target_off target_length : Nat}
    (hd : nonce_off + nonce_length ≤ target_off ∨ target_off + target_length ≤ nonce_off) :
    picoquic_lb_compat_cid_one_pass_stream enc
      (picoquic_lb_compat_cid_one_pass_stream enc c nonce_off nonce_length target_off target_length)
      nonce_off nonce_length target_off target_length = c := by
  funext i
  by_cases h : target_off ≤ i ∧ i < target_off + target_length
  · rw [one_pass_in h.1 h.2, extract_one_pass_disjoint hd, one_pass_in h.1 h.2,
      Nat.xor_assoc, Nat.xor_self, Nat.xor_zero]
  · rw [one_pass_out h, one_pass_out h]

theorem lb_three_pass_invol (enc : List Nat → List Nat) (nl sidl : Nat) (c : Nat → Nat) :
    lb_three_pass enc nl sidl (lb_three_pass enc nl sidl c) = c := by
  simp only [lb_three_pass]
  rw [one_pass_invol (Or.inl (Nat.le_refl (1 + nl))),
    one_pass_invol (Or.inr (Nat.le_refl (1 + nl))),
    one_pass_invol (Or.inl (Nat.le_refl (1 + nl)))]

theorem extract_writeBytesLen_full {c : Nat → Nat} {off : Nat} {bs : List Nat} {len : Nat}
    (hbs : bs.length = len) :
    extractBytes (writeBytesLen c off bs len) off len = bs := by
  apply List.ext_getElem (by simp [extractBytes, hbs])
  intro i h1 h2
  simp only [extractBytes, List.getElem_map, List.getElem_range]
  rw [writeBytesLen_in (Nat.le_add_right _ _) (by simpa [extractBytes] using h1)]
  simp only [Nat.add_sub_cancel_left]
  exact List.getD_eq_getElem bs 0 h2

/-! ## First-octet arithmetic -/

theorem lb_or_top_bits (r m : Nat) (hm : m < 64) : ((r <<< 6) ||| m) >>> 6 = r := by
  apply Nat.eq_of_testBit_eq
  intro i
  have h64 : m < 2 ^ (6 + i) := by
    calc m < 64 := hm
    _ = 2 ^ 6 := by norm_num
    _ ≤ 2 ^ (6 + i) := Nat.pow_le_pow_right (by norm_num) (by omega)
  simp [Nat.testBit_shiftRight, Nat.testBit_or, Nat.testBit_shiftLeft,
    Nat.testBit_lt_two_pow h64]

theorem lb_or_low_bits (r m : Nat) : ((r <<< 6) ||| (m &&& 63)) &&& 63 = m &&& 63 := by
  have h63 : (63 : Nat) = 2 ^ 6 - 1 := by norm_num
  rw [h63]
  apply Nat.eq_of_testBit_eq
  intro i
  simp only [Nat.testBit_and, Nat.testBit_or, Nat.testBit_shiftLeft,
    Nat.testBit_two_pow_sub_one]
  by_cases hi : i < 6
  · have : ¬(6 ≤ i) := by omega
    simp [hi, this]
  · simp [hi]

/-- The first octet produced by the generator never depends on the method:
each of the three methods rewrites it via `generate_first_byte` and then
touches only octets at index ≥ 1. -/
theorem lb_generate_id_zero (enc : List Nat → List Nat) (L : Nat)
    (ctx : picoquic_load_balancer_cid_context_t) (cid : picoquic_connection_id_t)
    (hm : ctx.method ≠ picoquic_load_balancer_cid_unknown) :
    (picoquic_lb_compat_cid_generate enc L ctx cid).id 0 =
      picoquic_lb_compat_cid_generate_first_byte L ctx cid.id 0 := by
  cases hmeth : ctx.method with
  | picoquic_load_balancer_cid_clear =>
    simp only [picoquic_lb_compat_cid_generate, hmeth,
      picoquic_lb_compat_cid_generate_clear]
    exact writeBytesLen_out (by omega)
  | picoquic_load_balancer_cid_stream_cipher =>
    simp only [picoquic_lb_compat_cid_generate, hmeth,
      picoquic_lb_compat_cid_generate_stream_cipher, lb_three_pass]
    rw [one_pass_out (by omega), one_pass_out (by omega), one_pass_out (by omega),
      writeBytesLen_out (by omega)]
  | picoquic_load_balancer_cid_block_cipher =>
    simp only [picoquic_lb_compat_cid_generate, hmeth,
      picoquic_lb_compat_cid_generate_block_cipher]
    rw [writeBytesLen_out (by omega), writeBytesLen_out (by omega)]
  | picoquic_load_balancer_cid_unknown => exact absurd hmeth hm

theorem lb_first_byte_length_encoded (L : Nat) (ctx : picoquic_load_balancer_cid_context_t)
    (c : Nat → Nat) (hrot : ctx.rotation_bits < 4) (hfb : ctx.first_byte_encodes_length = true)
    (h1 : 1 ≤ L) (h2 : L ≤ 64) :
    picoquic_lb_compat_cid_generate_first_byte L ctx c 0 =
      (ctx.rotation_bits <<< 6) ||| (L - 1) := by
  simp only [picoquic_lb_compat_cid_generate_first_byte, hfb, if_true, if_pos rfl]
  rw [Nat.mod_eq_of_lt (show ctx.rotation_bits < 256 by omega)]
  have h255 : (L + 255) % 256 = L - 1 := by omega
  rw [h255]
  apply Nat.mod_eq_of_lt
  have hs : ctx.rotation_bits <<< 6 < 256 := by
    rw [Nat.shiftLeft_eq]
    omega
  exact Nat.or_lt_two_pow (n := 8) hs (by omega)

theorem lb_first_byte_preserved (L : Nat) (ctx : picoquic_load_balancer_cid_context_t)
    (c : Nat → Nat) (hrot : ctx.rotation_bits < 4)
    (hfb : ctx.first_byte_encodes_length = false) :
    picoquic_lb_compat_cid_generate_first_byte L ctx c 0 =
      (ctx.rotation_bits <<< 6) ||| (c 0 &&& 63) := by
  simp only [picoquic_lb_compat_cid_generate_first_byte, hfb, if_false, if_pos rfl,
    Bool.false_eq_true]
  rw [Nat.mod_eq_of_lt (show ctx.rotation_bits < 256 by omega), Nat.or_comm]
  apply Nat.mod_eq_of_lt
  have hs : ctx.rotation_bits <<< 6 < 256 := by
    rw [Nat.shiftLeft_eq]
    omega
  have ha : c 0 &&& 63 < 256 := by
    have := Nat.and_le_right (n := c 0) (m := 63)
    omega
  exact Nat.or_lt_two_pow (n := 8) hs ha

/-! ## Big-endian serialisation and reassembly -/

theorem lb_mod_pow_div (s n k : Nat) (hk : k < n) :
    s % 256 ^ n / 256 ^ k % 256 = s / 256 ^ k % 256 := by
  have h256 : ∀ m : Nat, (256 : Nat) ^ m = 2 ^ (8 * m) := fun m => by
    rw [show (256 : Nat) = 2 ^ 8 by norm_num, ← pow_mul]
  rw [h256 n, h256 k, show (256 : Nat) = 2 ^ 8 by norm_num,
    ← Nat.shiftRight_eq_div_pow, ← Nat.shiftRight_eq_div_pow]
  apply Nat.eq_of_testBit_eq
  intro i
  simp only [Nat.testBit_mod_two_pow, Nat.testBit_shiftRight]
  by_cases hi : i < 8
  · have hin : 8 * k + i < 8 * n := by omega
    simp [hi, hin]
  · simp [hi]

theorem lb_encode_succ (s n : Nat) (h : s < 256 ^ (n + 1)) :
    lb_encode_server_id s (n + 1) =
      (s / 256 ^ n) :: lb_encode_server_id (s % 256 ^ n) n := by
  unfold lb_encode_server_id
  rw [List.range_succ_eq_map, List.map_cons, List.map_map]
  congr 1
  · show s / 256 ^ (n + 1 - 1 - 0) % 256 = s / 256 ^ n
    have he : n + 1 - 1 - 0 = n := by omega
    rw [he]
    apply Nat.mod_eq_of_lt
    rw [Nat.div_lt_iff_lt_mul (Nat.pos_pow_of_pos n (by norm_num))]
    calc s < 256 ^ (n + 1) := h
      _ = 256 * 256 ^ n := by rw [Nat.pow_succ]; ring
  · apply List.map_congr_left
    intro j hj
    have hj' : j < n := List.mem_range.mp hj
    show s / 256 ^ (n + 1 - 1 - Nat.succ j) % 256 = s % 256 ^ n / 256 ^ (n - 1 - j) % 256
    have he : n + 1 - 1 - Nat.succ j = n - 1 - j := by omega
    rw [he, lb_mod_pow_div s n (n - 1 - j) (by omega)]

theorem lb_fold_encode (len : Nat) : ∀ a s : Nat, s < 256 ^ len →
    a * 256 ^ len + s < 2 ^ 64 →
    List.foldl (fun x b => (x * 256 + b) % 2 ^ 64) a (lb_encode_server_id s len) =
      a * 256 ^ len + s := by
  induction len with
  | zero =>
    intro a s h1 _
    simp only [lb_encode_server_id, List.range_zero, List.map_nil, List.foldl_nil, pow_zero]
    omega
  | succ n ih =>
    intro a s h1 h2
    rw [lb_encode_succ s n h1, List.foldl_cons]
    have hqr : 256 ^ n * (s / 256 ^ n) + s % 256 ^ n = s := Nat.div_add_mod s (256 ^ n)
    have hval : (a * 256 + s / 256 ^ n) * 256 ^ n + s % 256 ^ n = a * 256 ^ (n + 1) + s := by
      calc (a * 256 + s / 256 ^ n) * 256 ^ n + s % 256 ^ n
          = a * (256 ^ n * 256) + (256 ^ n * (s / 256 ^ n) + s % 256 ^ n) := by ring
        _ = a * 256 ^ (n + 1) + s := by rw [hqr, Nat.pow_succ]
    have hpos : 0 < 256 ^ n := Nat.pos_pow_of_pos n (by norm_num)
    have hlt : a * 256 + s / 256 ^ n < 2 ^ 64 := by
      have hstep : (a * 256 + s / 256 ^ n) * 256 ^ n < 2 ^ 64 := by
        calc (a * 256 + s / 256 ^ n) * 256 ^ n
            ≤ (a * 256 + s / 256 ^ n) * 256 ^ n + s % 256 ^ n := Nat.le_add_right _ _
          _ = a * 256 ^ (n + 1) + s := hval
          _ < 2 ^ 64 := h2
      calc a * 256 + s / 256 ^ n
          ≤ (a * 256 + s / 256 ^ n) * 256 ^ n := Nat.le_mul_of_pos_right _ hpos
        _ < 2 ^ 64 := hstep
    rw [Nat.mod_eq_of_lt hlt,
      ih (a * 256 + s / 256 ^ n) (s % 256 ^ n) (Nat.mod_lt _ hpos) (by rw [hval]; exact h2)]
    exact hval

/-- Decoding the big-endian serialisation of a server id that fits in
`len` octets (and in a `uint64_t`) recovers it. -/
theorem lb_sid_decode_encode (s len : Nat) (h1 : s < 256 ^ len) (h2 : s < 2 ^ 64) :
    lb_sid_decode (lb_encode_server_id s len) = s := by
  have := lb_fold_encode len 0 s h1 (by simpa using h2)
  simpa [lb_sid_decode] using this

theorem lb_encode_length (s len : Nat) : (lb_encode_server_id s len).length = len := by
  simp [lb_encode_server_id]

/-! ## Inversion of a successful installation -/

theorem lb_install_ok_inv {quic : picoquic_quic_t} {cfg : picoquic_load_balancer_config_t}
    {m e d : Bool} (h : (picoquic_lb_compat_cid_config quic cfg m e d).ret = 0) :
    lb_config_validate cfg = 0 ∧
    cfg.server_id64 < 256 ^ cfg.server_id_length ∧
    (picoquic_lb_compat_cid_config quic cfg m e d).quic.cnx_id_callback_ctx =
      some (lb_cid_ctx_of_config cfg) ∧
    (picoquic_lb_compat_cid_config quic cfg m e d).quic.local_cnxid_length =
      cfg.connection_id_length := by
  set R := picoquic_lb_compat_cid_config quic cfg m e d with hEq
  simp only [picoquic_lb_compat_cid_config] at hEq
  split at hEq
  · rw [hEq] at h; exact absurd h (by simp)
  split at hEq
  · rw [hEq] at h; exact absurd h (by simp)
  split at hEq
  next hv => rw [hEq] at h; exact absurd h hv
  next hv =>
  split at hEq
  · rw [hEq] at h; exact absurd h (by simp)
  split at hEq
  next hl => rw [hEq] at h; exact absurd h (by simp)
  next hl =>
  have hv' : lb_config_validate cfg = 0 := by
    by_contra hc
    exact hv hc
  have hfit : cfg.server_id64 < 256 ^ cfg.server_id_length := by
    have hz : cfg.server_id64 / 256 ^ cfg.server_id_length = 0 := by
      by_contra hc
      exact hl hc
    exact (Nat.div_eq_zero_iff (Nat.pos_pow_of_pos _ (by norm_num))).mp hz
  split at hEq
  · split at hEq
    next he => rw [hEq] at h; exact absurd h (by simp)
    next he =>
    split at hEq
    · split at hEq
      next hd => rw [hEq] at h; exact absurd h (by simp)
      next hd => exact ⟨hv', hfit, by rw [hEq], by rw [hEq]⟩
    · exact ⟨hv', hfit, by rw [hEq], by rw [hEq]⟩
  · exact ⟨hv', hfit, by rw [hEq], by rw [hEq]⟩

/-! ## Claim C9 -/

/-- C9: the guard `s_id64 == 0` tested before the decode loop of
`picoquic_lb_compat_cid_verify_block_cipher` is true on every call (the
accumulator is locally initialised to zero and not written in between), so
the function is equivalent to the unconditional reassembly returning the
big-endian value of the first `server_id_length` octets of the decrypted
block. -/
theorem claim_C9_block_verify_guard_dead (dec : List Nat → List Nat)
    (lb_ctx : picoquic_load_balancer_cid_context_t) (cnx_id : picoquic_connection_id_t) :
    picoquic_lb_compat_cid_verify_block_cipher dec lb_ctx cnx_id =
      lb_verify_block_cipher_unconditional dec lb_ctx cnx_id := rfl

/-! ## Claim C4 -/

/-- C4: contrary to the parser's own comment ("default to zero, in which
case will be filled from QUIC context") and the spec's "0 means inherit
from host", a configuration with `connection_id_length = 0` is accepted by
the parser but then rejected by `picoquic_lb_compat_cid_config`: on the
input `0NC-2a` the parse succeeds with CID length 0, and installing the
parsed configuration on a fresh host (local CID length 8) returns `-1`
instead of inheriting the host's length. -/
theorem claim_C4_zero_cid_length_rejected :
    lb_parse_ret (lb_parse_chars ['0', 'N', 'C', '-', '2', 'a']) = some 0 ∧
    (lb_parse_cfg (lb_parse_chars ['0', 'N', 'C', '-', '2', 'a'])).map
      (fun c => c.connection_id_length) = some 0 ∧
    (lb_parse_cfg (lb_parse_chars ['0', 'N', 'C', '-', '2', 'a'])).map
      (fun c => (picoquic_lb_compat_cid_config lb_quic_fresh c true true true).ret) =
      some (-1) :=
  ⟨rfl, rfl, rfl⟩

/-! ## Claim C5 (counterexample) -/

/-- C5 counterexample: the parser does not reject CID lengths above 20;
`0Y21C-01` parses successfully (`ret = 0`) with `connection_id_length = 21`. -/
theorem claim_C5_counterexample :
    lb_parse_ret (lb_parse_chars ['0', 'Y', '2', '1', 'C', '-', '0', '1']) = some 0 ∧
    (lb_parse_cfg (lb_parse_chars ['0', 'Y', '2', '1', 'C', '-', '0', '1'])).map
      (fun c => c.connection_id_length) = some 21 :=
  ⟨rfl, rfl⟩

/-! ## Claim C8 (counterexample) -/

/-- C8 counterexample: parser failures are not a single value: a bad
server-id hex field (`0Y5C-zz`) returns `1` while a bad rotation digit
(`4Y5C-2a`) returns `-1`. -/
theorem claim_C8_counterexample :
    lb_parse_ret (lb_parse_chars ['0', 'Y', '5', 'C', '-', 'z', 'z']) = some 1 ∧
    lb_parse_ret (lb_parse_chars ['4', 'Y', '5', 'C', '-', '2', 'a']) = some (-1) :=
  ⟨rfl, rfl⟩

/-! ## Claim C10 (counterexample) -/

/-- C10 counterexample: the out-of-bounds branch is reachable: on the
input `0Y12` (length 4) the unguarded hyphen check reads `txt[4]`, one
past the end, so the Option-indexed embedding returns the out-of-bounds
outcome. -/
theorem claim_C10_counterexample :
    lb_parse_chars ['0', 'Y', '1', '2'] = .error () := rfl

/-! ## Claim C7 -/

/-- C7: install is atomic on failure: whenever
`picoquic_lb_compat_cid_config` returns non-zero, the allocated context
copy and any partially created AES contexts have been freed, and the
host's `local_cnxid_length`, `cnx_id_callback_fn` and
`cnx_id_callback_ctx` retain their previous values. -/
theorem claim_C7_install_atomic_on_failure (quic : picoquic_quic_t)
    (cfg : picoquic_load_balancer_config_t) (m e d : Bool)
    (h : (picoquic_lb_compat_cid_config quic cfg m e d).ret ≠ 0) :
    (picoquic_lb_compat_cid_config quic cfg m e d).quic = quic ∧
    (picoquic_lb_compat_cid_config quic cfg m e d).ctx_alloc_live = false ∧
    (picoquic_lb_compat_cid_config quic cfg m e d).enc_ctx_live = false ∧
    (picoquic_lb_compat_cid_config quic cfg m e d).dec_ctx_live = false := by
  set R := picoquic_lb_compat_cid_config quic cfg m e d with hEq
  simp only [picoquic_lb_compat_cid_config] at hEq
  repeat' (first
    | split at hEq
    | (rw [hEq]; exact ⟨rfl, rfl, rfl, rfl⟩)
    | (rw [hEq] at h; exact absurd rfl h))

/-- Witness for C7: installing a configuration whose CID length is zero
fails, and the failing install leaves the fresh host untouched with no
live allocations. -/
theorem claim_C7_witness :
    (picoquic_lb_compat_cid_config lb_quic_fresh lb_cfg_zero_cid true true true).quic =
      lb_quic_fresh ∧
    (picoquic_lb_compat_cid_config lb_quic_fresh lb_cfg_zero_cid true true true).ctx_alloc_live =
      false ∧
    (picoquic_lb_compat_cid_config lb_quic_fresh lb_cfg_zero_cid true true true).enc_ctx_live =
      false ∧
    (picoquic_lb_compat_cid_config lb_quic_fresh lb_cfg_zero_cid true true true).dec_ctx_live =
      false :=
  claim_C7_install_atomic_on_failure lb_quic_fresh lb_cfg_zero_cid true true true (by decide)

/-! ## Claim C3 -/

/-- C3: for every context with the §3 data-model invariants
(`rotation_bits < 4`, `1 ≤ cid_length ≤ 20`, known method) and every CID
buffer, after generation (with the host's local CID length equal to the
configured length, as installation guarantees) octet 0 equals
`(rotation_bits <<< 6) ||| (cid_length - 1)` when
`first_byte_encodes_length` is set, and otherwise
`(rotation_bits <<< 6) ||| (octet0 &&& 0x3F)`; hence the top two bits of
octet 0 always equal `rotation_bits`, and without length encoding the
caller's low six bits are preserved. -/
theorem claim_C3_first_octet (enc : List Nat → List Nat) (L : Nat)
    (ctx : picoquic_load_balancer_cid_context_t) (cid : picoquic_connection_id_t)
    (hm : ctx.method ≠ picoquic_load_balancer_cid_unknown)
    (hrot : ctx.rotation_bits < 4)
    (hcl : 1 ≤ ctx.connection_id_length) (hcu : ctx.connection_id_length ≤ 20)
    (hL : L = ctx.connection_id_length) :
    (ctx.first_byte_encodes_length = true →
      (picoquic_lb_compat_cid_generate enc L ctx cid).id 0 =
        (ctx.rotation_bits <<< 6) ||| (ctx.connection_id_length - 1)) ∧
    (ctx.first_byte_encodes_length = false →
      (picoquic_lb_compat_cid_generate enc L ctx cid).id 0 =
        (ctx.rotation_bits <<< 6) ||| (cid.id 0 &&& 63)) ∧
    (picoquic_lb_compat_cid_generate enc L ctx cid).id 0 >>> 6 = ctx.rotation_bits ∧
    (ctx.first_byte_encodes_length = false →
      (picoquic_lb_compat_cid_generate enc L ctx cid).id 0 &&& 63 = cid.id 0 &&& 63) := by
  rw [lb_generate_id_zero enc L ctx cid hm]
  subst hL
  cases hfb : ctx.first_byte_encodes_length with
  | true =>
    rw [lb_first_byte_length_encoded _ _ _ hrot hfb hcl (by omega)]
    refine ⟨fun _ => rfl, fun hc => Bool.noConfusion hc, ?_, fun hc => Bool.noConfusion hc⟩
    exact lb_or_top_bits _ _ (by omega)
  | false =>
    rw [lb_first_byte_preserved _ _ _ hrot hfb]
    refine ⟨fun hc => Bool.noConfusion hc, fun _ => rfl, ?_, fun _ => lb_or_low_bits _ _⟩
    apply lb_or_top_bits
    have := Nat.and_le_right (n := cid.id 0) (m := 63)
    omega

/-- Witness for C3: for the installed Clear context of `lb_cfg_clear5`
(rotation 0, no length encoding) the generated first octet's top two bits
equal the rotation bits. -/
theorem claim_C3_witness :
    (picoquic_lb_compat_cid_generate lb_id_perm 5 (lb_cid_ctx_of_config lb_cfg_clear5)
        (lb_cid_ramp 5)).id 0 >>> 6 =
      (lb_cid_ctx_of_config lb_cfg_clear5).rotation_bits :=
  (claim_C3_first_octet lb_id_perm 5 (lb_cid_ctx_of_config lb_cfg_clear5) (lb_cid_ramp 5)
    (by decide) (by decide) (by decide) (by decide) (by decide)).2.2.1

/-! ## Per-method round-trip lemmas -/

theorem lb_getD_extract (c : Nat → Nat) (off n j : Nat) (hj : j < n) :
    (extractBytes c off n).getD j 0 = c (off + j) := by
  rw [List.getD_eq_getElem _ _ (by simpa [extractBytes] using hj)]
  simp [extractBytes]

theorem lb_extract_length (c : Nat → Nat) (off n : Nat) :
    (extractBytes c off n).length = n := by
  simp [extractBytes]

/-- Clear method: the octets at 1 .. 1+server_id_length of a generated CID
are exactly the context's server-id octets. -/
theorem lb_generate_clear_extract (L : Nat) (ctx : picoquic_load_balancer_cid_context_t)
    (c : Nat → Nat) (hsl : ctx.server_id.length = ctx.server_id_length) :
    extractBytes (picoquic_lb_compat_cid_generate_clear L ctx c) 1 ctx.server_id_length =
      ctx.server_id :=
  extract_writeBytesLen_full hsl

/-- StreamCipher method: applying the three-pass mask to a generated CID
and reading the octets at `id_offset` yields the clear-text server id. -/
theorem lb_generate_stream_extract (enc : List Nat → List Nat) (L : Nat)
    (ctx : picoquic_load_balancer_cid_context_t) (c : Nat → Nat)
    (hsl : ctx.server_id.length = ctx.server_id_length) :
    extractBytes
      (lb_three_pass enc ctx.nonce_length ctx.server_id_length
        (picoquic_lb_compat_cid_generate_stream_cipher enc L ctx c))
      (1 + ctx.nonce_length) ctx.server_id_length = ctx.server_id := by
  unfold picoquic_lb_compat_cid_generate_stream_cipher
  rw [lb_three_pass_invol]
  exact extract_writeBytesLen_full hsl

/-- BlockCipher method: decrypting the octets at 1..17 of a generated CID
recovers the pre-encryption block (server id followed by the caller's
pre-filled octets). -/
theorem lb_generate_block_decoded (enc dec : List Nat → List Nat) (L : Nat)
    (ctx : picoquic_load_balancer_cid_context_t) (c : Nat → Nat)
    (henc : ∀ bs : List Nat, bs.length = 16 → (enc bs).length = 16)
    (hdec : ∀ bs : List Nat, bs.length = 16 → dec (enc bs) = bs) :
    dec (extractBytes (picoquic_lb_compat_cid_generate_block_cipher enc L ctx c) 1 16) =
      extractBytes
        (writeBytesLen (picoquic_lb_compat_cid_generate_first_byte L ctx c) 1
          ctx.server_id ctx.server_id_length) 1 16 := by
  simp only [picoquic_lb_compat_cid_generate_block_cipher]
  rw [extract_writeBytesLen_full (henc _ (lb_extract_length _ _ _))]
  exact hdec _ (lb_extract_length _ _ _)

/-- A fold over `List.range n` that reads `bs.getD` octet-wise equals
`lb_sid_decode` of any list with the same first `n` octets. -/
theorem lb_range_fold_decode (bs sid : List Nat) (n : Nat) (hlen : sid.length = n)
    (hagree : ∀ j, j < n → bs.getD j 0 = sid.getD j 0) :
    (List.range n).foldl (fun a j => (a * 256 + bs.getD j 0) % 2 ^ 64) 0 =
      lb_sid_decode sid := by
  unfold lb_sid_decode
  have hmap := List.foldl_map (fun j => bs.getD j 0)
    (fun a b => (a * 256 + b) % 2 ^ 64) (List.range n) 0
  rw [← hmap]
  congr 1
  apply List.ext_getElem (by simpa using hlen.symm)
  intro i h1 h2
  simp only [List.getElem_map, List.getElem_range]
  rw [hagree i (by simpa using h1), List.getD_eq_getElem _ _ h2]

/-! ## Dispatch lemmas for generation and verification -/

theorem lb_generate_id_clear (enc : List Nat → List Nat) (L : Nat)
    (ctx : picoquic_load_balancer_cid_context_t) (cid : picoquic_connection_id_t)
    (hmc : ctx.method = picoquic_load_balancer_cid_clear) :
    (picoquic_lb_compat_cid_generate enc L ctx cid).id =
      picoquic_lb_compat_cid_generate_clear L ctx cid.id := by
  simp [picoquic_lb_compat_cid_generate, hmc]

theorem lb_generate_id_stream (enc : List Nat → List Nat) (L : Nat)
    (ctx : picoquic_load_balancer_cid_context_t) (cid : picoquic_connection_id_t)
    (hmc : ctx.method = picoquic_load_balancer_cid_stream_cipher) :
    (picoquic_lb_compat_cid_generate enc L ctx cid).id =
      picoquic_lb_compat_cid_generate_stream_cipher enc L ctx cid.id := by
  simp [picoquic_lb_compat_cid_generate, hmc]

theorem lb_generate_id_block (enc : List Nat → List Nat) (L : Nat)
    (ctx : picoquic_load_balancer_cid_context_t) (cid : picoquic_connection_id_t)
    (hmc : ctx.method = picoquic_load_balancer_cid_block_cipher) :
    (picoquic_lb_compat_cid_generate enc L ctx cid).id =
      picoquic_lb_compat_cid_generate_block_cipher enc L ctx cid.id := by
  simp [picoquic_lb_compat_cid_generate, hmc]

theorem lb_verify_dispatch_clear (enc dec : List Nat → List Nat)
    (ctx : picoquic_load_balancer_cid_context_t) (cid : picoquic_connection_id_t)
    (hmc : ctx.method = picoquic_load_balancer_cid_clear)
    (hl : cid.id_len = ctx.connection_id_length) :
    picoquic_lb_compat_cid_verify enc dec ctx cid =
      picoquic_lb_compat_cid_verify_clear ctx cid := by
  unfold picoquic_lb_compat_cid_verify
  rw [if_neg (not_not_intro hl), hmc]

theorem lb_verify_dispatch_stream (enc dec : List Nat → List Nat)
    (ctx : picoquic_load_balancer_cid_context_t) (cid : picoquic_connection_id_t)
    (hmc : ctx.method = picoquic_load_balancer_cid_stream_cipher)
    (hl : cid.id_len = ctx.connection_id_length) :
    picoquic_lb_compat_cid_verify enc dec ctx cid =
      picoquic_lb_compat_cid_verify_stream_cipher enc ctx cid := by
  unfold picoquic_lb_compat_cid_verify
  rw [if_neg (not_not_intro hl), hmc]

theorem lb_verify_dispatch_block (enc dec : List Nat → List Nat)
    (ctx : picoquic_load_balancer_cid_context_t) (cid : picoquic_connection_id_t)
    (hmc : ctx.method = picoquic_load_balancer_cid_block_cipher)
    (hl : cid.id_len = ctx.connection_id_length) :
    picoquic_lb_compat_cid_verify enc dec ctx cid =
      picoquic_lb_compat_cid_verify_block_cipher dec ctx cid := by
  unfold picoquic_lb_compat_cid_verify
  rw [if_neg (not_not_intro hl), hmc]

theorem lb_verify_block_fold (dec : List Nat → List Nat)
    (ctx : picoquic_load_balancer_cid_context_t) (cid : picoquic_connection_id_t) :
    picoquic_lb_compat_cid_verify_block_cipher dec ctx cid =
      (List.range ctx.server_id_length).foldl
        (fun a j => (a * 256 + (dec (extractBytes cid.id 1 16)).getD j 0) % 2 ^ 64) 0 := rfl

/-! ## Claim C1 -/

/-- C1: for every configuration that parses and installs successfully
(stated for every configuration accepted by
`picoquic_lb_compat_cid_config`, a superset of those the parser can
produce, with the `uint64_t` type bound on `server_id64` made explicit),
and for every pre-filled CID buffer of the configured length, verifying a
generated CID through the installed context recovers the configured
server id, for each of the three methods.  `enc`/`dec` model the
AES-128-ECB permutation: `dec` inverts `enc` on 16-octet blocks. -/
theorem claim_C1_roundtrip (enc dec : List Nat → List Nat) (quic : picoquic_quic_t)
    (cfg : picoquic_load_balancer_config_t) (m e d : Bool)
    (ctx : picoquic_load_balancer_cid_context_t) (cid : picoquic_connection_id_t)
    (henc : ∀ bs : List Nat, bs.length = 16 → (enc bs).length = 16)
    (hdec : ∀ bs : List Nat, bs.length = 16 → dec (enc bs) = bs)
    (h64 : cfg.server_id64 < 2 ^ 64)
    (hok : (picoquic_lb_compat_cid_config quic cfg m e d).ret = 0)
    (hctx : (picoquic_lb_compat_cid_config quic cfg m e d).quic.cnx_id_callback_ctx = some ctx)
    (hlen : cid.id_len = cfg.connection_id_length) :
    picoquic_lb_compat_cid_verify enc dec ctx
      (picoquic_lb_compat_cid_generate enc
        (picoquic_lb_compat_cid_config quic cfg m e d).quic.local_cnxid_length ctx cid) =
      cfg.server_id64 := by
  obtain ⟨hv, hfit, hctx', _⟩ := lb_install_ok_inv hok
  rw [hctx'] at hctx
  obtain rfl : lb_cid_ctx_of_config cfg = ctx := Option.some.inj hctx
  have hsl : (lb_cid_ctx_of_config cfg).server_id.length =
      (lb_cid_ctx_of_config cfg).server_id_length := by
    simp [lb_cid_ctx_of_config, lb_encode_length]
  have hgl : (picoquic_lb_compat_cid_generate enc
      (picoquic_lb_compat_cid_config quic cfg m e d).quic.local_cnxid_length
      (lb_cid_ctx_of_config cfg) cid).id_len =
      (lb_cid_ctx_of_config cfg).connection_id_length := hlen
  cases hm : cfg.method with
  | picoquic_load_balancer_cid_clear =>
    have hmc : (lb_cid_ctx_of_config cfg).method = picoquic_load_balancer_cid_clear := hm
    rw [lb_verify_dispatch_clear enc dec _ _ hmc hgl]
    unfold picoquic_lb_compat_cid_verify_clear
    rw [lb_generate_id_clear enc _ _ _ hmc, lb_generate_clear_extract _ _ _ hsl]
    exact lb_sid_decode_encode _ _ hfit h64
  | picoquic_load_balancer_cid_stream_cipher =>
    have hmc : (lb_cid_ctx_of_config cfg).method =
      picoquic_load_balancer_cid_stream_cipher := hm
    rw [lb_verify_dispatch_stream enc dec _ _ hmc hgl]
    unfold picoquic_lb_compat_cid_verify_stream_cipher
    rw [lb_generate_id_stream enc _ _ _ hmc, lb_generate_stream_extract enc _ _ _ hsl]
    exact lb_sid_decode_encode _ _ hfit h64
  | picoquic_load_balancer_cid_block_cipher =>
    have hmc : (lb_cid_ctx_of_config cfg).method =
      picoquic_load_balancer_cid_block_cipher := hm
    have hfifteen : cfg.server_id_length ≤ 15 := by
      unfold lb_config_validate at hv
      rw [hm] at hv
      by_cases h20 : cfg.connection_id_length > PICOQUIC_CONNECTION_ID_MAX_SIZE
      · rw [if_pos h20] at hv
        exact absurd hv (by decide)
      · rw [if_neg h20] at hv
        have hv' : (if cfg.connection_id_length < 17 ∨ cfg.server_id_length > 15 then (-1 : Int)
            else 0) = 0 := hv
        by_cases hc : cfg.connection_id_length < 17 ∨ cfg.server_id_length > 15
        · rw [if_pos hc] at hv'
          exact absurd hv' (by decide)
        · omega
    rw [lb_verify_dispatch_block enc dec _ _ hmc hgl, lb_verify_block_fold,
      lb_generate_id_block enc _ _ _ hmc,
      lb_generate_block_decoded enc dec _ _ _ henc hdec]
    have hceq : (lb_cid_ctx_of_config cfg).server_id_length = cfg.server_id_length := rfl
    rw [lb_range_fold_decode _ (lb_cid_ctx_of_config cfg).server_id
      (lb_cid_ctx_of_config cfg).server_id_length hsl
      (fun j hj => by
        rw [lb_getD_extract _ _ _ _ (by omega),
          writeBytesLen_in (by omega) (by omega)]
        have he : 1 + j - 1 = j := by omega
        rw [he])]
    exact lb_sid_decode_encode _ _ hfit h64
  | picoquic_load_balancer_cid_unknown =>
    exfalso
    unfold lb_config_validate at hv
    rw [hm] at hv
    by_cases h20 : cfg.connection_id_length > PICOQUIC_CONNECTION_ID_MAX_SIZE
    · rw [if_pos h20] at hv
      exact absurd hv (by decide)
    · rw [if_neg h20] at hv
      have hv2 : (-1 : Int) = 0 := hv
      exact absurd hv2 (by decide)

/-- Witness for C1: the Clear configuration `lb_cfg_clear5` installs on a
fresh host and the generate/verify round trip returns its server id 42. -/
theorem claim_C1_witness :
    picoquic_lb_compat_cid_verify lb_id_perm lb_id_perm (lb_cid_ctx_of_config lb_cfg_clear5)
      (picoquic_lb_compat_cid_generate lb_id_perm
        (picoquic_lb_compat_cid_config lb_quic_fresh lb_cfg_clear5 true true
          true).quic.local_cnxid_length
        (lb_cid_ctx_of_config lb_cfg_clear5) (lb_cid_ramp 5)) =
      lb_cfg_clear5.server_id64 :=
  claim_C1_roundtrip lb_id_perm lb_id_perm lb_quic_fresh lb_cfg_clear5 true true true
    (lb_cid_ctx_of_config lb_cfg_clear5) (lb_cid_ramp 5)
    (fun _ h => h) (fun _ _ => rfl) (by decide) (by decide) (by decide) (by decide)

/-! ## Claim C6 -/

/-- C6: the three-pass stream-cipher masking is self-inverse: for every
StreamCipher context and every pre-filled CID buffer, applying the same
three one-pass masks (`lb_three_pass`, all keyed with the encryption
handle) to the generated CID restores the original nonce octets at
`cid[1 .. id_offset)` and the clear-text server-id octets at
`cid[id_offset .. id_offset + server_id_length)`. -/
theorem claim_C6_stream_self_inverse (enc : List Nat → List Nat) (L : Nat)
    (ctx : picoquic_load_balancer_cid_context_t) (c : Nat → Nat) :
    (∀ i, 1 ≤ i → i < 1 + ctx.nonce_length →
      lb_three_pass enc ctx.nonce_length ctx.server_id_length
        (picoquic_lb_compat_cid_generate_stream_cipher enc L ctx c) i = c i) ∧
    (∀ j, j < ctx.server_id_length →
      lb_three_pass enc ctx.nonce_length ctx.server_id_length
        (picoquic_lb_compat_cid_generate_stream_cipher enc L ctx c)
        (1 + ctx.nonce_length + j) = ctx.server_id.getD j 0) := by
  unfold picoquic_lb_compat_cid_generate_stream_cipher
  rw [lb_three_pass_invol]
  constructor
  · intro i h1 h2
    rw [writeBytesLen_out (by omega)]
    unfold picoquic_lb_compat_cid_generate_first_byte
    rw [if_neg (by omega)]
  · intro j hj
    rw [writeBytesLen_in (by omega) (by omega)]
    have he : 1 + ctx.nonce_length + j - (1 + ctx.nonce_length) = j := by omega
    rw [he]

/-- Witness for C6: for the StreamCipher context of `lb_cfg_stream_test`
(12-octet nonce), the three-pass mask applied to a generated CID restores
octet 1 of the pre-filled buffer. -/
theorem claim_C6_witness :
    lb_three_pass lb_id_perm (lb_cid_ctx_of_config lb_cfg_stream_test).nonce_length
      (lb_cid_ctx_of_config lb_cfg_stream_test).server_id_length
      (picoquic_lb_compat_cid_generate_stream_cipher lb_id_perm 20
        (lb_cid_ctx_of_config lb_cfg_stream_test) (lb_cid_ramp 20).id) 1 =
      (lb_cid_ramp 20).id 1 :=
  (claim_C6_stream_self_inverse lb_id_perm 20 (lb_cid_ctx_of_config lb_cfg_stream_test)
    (lb_cid_ramp 20).id).1 1 (by decide) (by decide)

/-! ## Claim C2 -/

/-- C2 counterexample: the sentinel is not exclusive to malformed input:
`lb_cfg_all_ff` (Clear method, 8 server-id octets all `0xFF`) installs
successfully, and verifying a CID of the configured length 9 with a known
method returns `UINT64_MAX` anyway, refuting the "only if" direction of
the claim. -/
theorem claim_C2_counterexample :
    (picoquic_lb_compat_cid_config lb_quic_fresh lb_cfg_all_ff true true true).ret = 0 ∧
    lb_cid_all_ff.id_len = (lb_cid_ctx_of_config lb_cfg_all_ff).connection_id_length ∧
    (lb_cid_ctx_of_config lb_cfg_all_ff).method ≠ picoquic_load_balancer_cid_unknown ∧
    picoquic_lb_compat_cid_verify lb_id_perm lb_id_perm (lb_cid_ctx_of_config lb_cfg_all_ff)
      lb_cid_all_ff = UINT64_MAX := by
  refine ⟨by decide, by decide, by decide, by decide⟩

/-- C2 (amended): `picoquic_lb_compat_cid_verify` returns `UINT64_MAX`
whenever the CID length differs from the configured `cid_length` or the
context's method is unknown; but the sentinel is not exclusive: on some
installed context and some CID of the configured length with a known
method the decoded server id itself equals `UINT64_MAX` (the claim's
"for all other inputs it returns a value other than UINT64_MAX" is
false). -/
theorem claim_C2_amended :
    (∀ (enc dec : List Nat → List Nat) (ctx : picoquic_load_balancer_cid_context_t)
      (cid : picoquic_connection_id_t),
      cid.id_len ≠ ctx.connection_id_length ∨
        ctx.method = picoquic_load_balancer_cid_unknown →
      picoquic_lb_compat_cid_verify enc dec ctx cid = UINT64_MAX) ∧
    ((picoquic_lb_compat_cid_config lb_quic_fresh lb_cfg_all_ff true true true).ret = 0 ∧
      lb_cid_all_ff.id_len = (lb_cid_ctx_of_config lb_cfg_all_ff).connection_id_length ∧
      (lb_cid_ctx_of_config lb_cfg_all_ff).method ≠ picoquic_load_balancer_cid_unknown ∧
      picoquic_lb_compat_cid_verify lb_id_perm lb_id_perm (lb_cid_ctx_of_config lb_cfg_all_ff)
        lb_cid_all_ff = UINT64_MAX) := by
  constructor
  · intro enc dec ctx cid h
    unfold picoquic_lb_compat_cid_verify
    rcases h with h | h
    · rw [if_pos h]
    · by_cases hl : cid.id_len ≠ ctx.connection_id_length
      · rw [if_pos hl]
      · rw [if_neg hl, h]
  · exact ⟨by decide, by decide, by decide, by decide⟩

/-- Witness for C2: a 4-octet CID against the installed 5-octet Clear
context yields the sentinel. -/
theorem claim_C2_witness :
    picoquic_lb_compat_cid_verify lb_id_perm lb_id_perm (lb_cid_ctx_of_config lb_cfg_clear5)
      (lb_cid_ramp 4) = UINT64_MAX :=
  claim_C2_amended.1 lb_id_perm lb_id_perm (lb_cid_ctx_of_config lb_cfg_clear5) (lb_cid_ramp 4)
    (Or.inl (by decide))

/-! ## Return-value range of the parser stages -/

theorem lb_scan_decimal_ret (txt : Nat → Option Char) (len : Nat) :
    ∀ (fuel parsed acc stored : Nat) (ret : Int) (out : Nat × Nat × Nat × Int),
    lb_scan_decimal txt len fuel parsed acc stored ret = .ok out →
    out.2.2.2 = ret ∨ out.2.2.2 = -1 := by
  intro fuel
  induction fuel with
  | zero =>
    intro parsed acc stored ret out h
    left
    have he := Except.ok.inj h
    rw [← he]
  | succ n ih =>
    intro parsed acc stored ret out h
    rw [lb_scan_decimal] at h
    split at h
    · obtain ⟨c, hc, h⟩ := lb_except_bind_ok h
      split at h
      · split at h
        · exact ih _ _ _ _ _ h
        · right
          have he := Except.ok.inj h
          rw [← he]
      · left
        have he := Except.ok.inj h
        rw [← he]
    · left
      have he := Except.ok.inj h
      rw [← he]

theorem lb_parse_method_ret (txt : Nat → Option Char) (len parsed : Nat)
    (cfg : picoquic_load_balancer_config_t) (ret : Int)
    (out : Nat × picoquic_load_balancer_config_t × Int)
    (h : lb_parse_method txt len parsed cfg ret = .ok out) :
    out.2.2 = ret ∨ out.2.2 = -1 := by
  unfold lb_parse_method at h
  split at h
  · right
    have he := Except.ok.inj h
    rw [← he]
  · split at h
    · obtain ⟨c, hc, h⟩ := lb_except_bind_ok h
      split at h
      · left
        have he := Except.ok.inj h
        rw [← he]
      · split at h
        · obtain ⟨⟨p2, a2, s2, r2⟩, hscan, h⟩ := lb_except_bind_ok h
          have hr := lb_scan_decimal_ret txt len _ _ _ _ _ _ hscan
          have he := Except.ok.inj h
          rw [← he]
          exact hr
        · split at h
          · left
            have he := Except.ok.inj h
            rw [← he]
          · right
            have he := Except.ok.inj h
            rw [← he]
    · left
      have he := Except.ok.inj h
      rw [← he]

theorem lb_parse_rot_ret (c0 : Char) :
    (lb_parse_rot c0).1 = 0 ∨ (lb_parse_rot c0).1 = -1 := by
  unfold lb_parse_rot
  split <;> simp

theorem lb_parse_flags_ret (c0 c1 : Char) :
    (lb_parse_flags c0 c1).1 = 0 ∨ (lb_parse_flags c0 c1).1 = -1 := by
  unfold lb_parse_flags
  split
  · exact lb_parse_rot_ret c0
  · split
    · simp
    · exact lb_parse_rot_ret c0

theorem lb_parse_head_rest_ret (txt : Nat → Option Char) (len : Nat) (ret : Int)
    (cfg : picoquic_load_balancer_config_t) (st : LbParseSt)
    (h : lb_parse_head_rest txt len ret cfg = .ok st) :
    st.2.1 = ret ∨ st.2.1 = -1 := by
  unfold lb_parse_head_rest at h
  obtain ⟨⟨p1, a1, s1, r1⟩, hscan, h⟩ := lb_except_bind_ok h
  have hr1 := lb_scan_decimal_ret txt len _ _ _ _ _ _ hscan
  obtain ⟨⟨p2, cfg2, r2⟩, hmeth, h⟩ := lb_except_bind_ok h
  have hr2 := lb_parse_method_ret txt len _ _ _ _ hmeth
  obtain ⟨ch, hch, h⟩ := lb_except_bind_ok h
  have hr1' : r1 = ret ∨ r1 = -1 := hr1
  have hr2' : r2 = r1 ∨ r2 = -1 := hr2
  split at h
  · have he := Except.ok.inj h
    rw [← he]
    show r2 = ret ∨ r2 = -1
    omega
  · have he := Except.ok.inj h
    rw [← he]
    right
    rfl

theorem lb_parse_head_ret (txt : Nat → Option Char) (len : Nat) (st : LbParseSt)
    (h : lb_parse_head txt len = .ok st) : st.2.1 = 0 ∨ st.2.1 = -1 := by
  unfold lb_parse_head at h
  obtain ⟨c0, hc0, h⟩ := lb_except_bind_ok h
  obtain ⟨c1, hc1, h⟩ := lb_except_bind_ok h
  have hfr := lb_parse_flags_ret c0 c1
  have hrest := lb_parse_head_rest_ret txt len _ _ _ h
  omega

theorem lb_parse_sid_ret (txt : Nat → Option Char) (len : Nat) (st st' : LbParseSt)
    (h : lb_parse_sid txt len st = .ok st') :
    st'.2.1 = st.2.1 ∨ st'.2.1 = -1 ∨ st'.2.1 = 1 := by
  obtain ⟨parsed, ret, cfg⟩ := st
  simp only [lb_parse_sid] at h
  split at h
  · right; left
    have he := Except.ok.inj h
    rw [← he]
  · split at h
    · obtain ⟨hl, hhl, h⟩ := lb_except_bind_ok h
      obtain ⟨_ | bs, hsid, h⟩ := lb_except_bind_ok h
      · right; right
        have he := Except.ok.inj h
        rw [← he]
      · dsimp only at h
        split at h
        · right; right
          have he := Except.ok.inj h
          rw [← he]
        · left
          have he := Except.ok.inj h
          rw [← he]
    · left
      have he := Except.ok.inj h
      rw [← he]

theorem lb_parse_key_ret (txt : Nat → Option Char) (len : Nat) (st st' : LbParseSt)
    (h : lb_parse_key txt len st = .ok st') :
    st'.2.1 = st.2.1 ∨ st'.2.1 = -1 := by
  obtain ⟨parsed, ret, cfg⟩ := st
  simp only [lb_parse_key] at h
  split at h
  · obtain ⟨ch, hch, h⟩ := lb_except_bind_ok h
    split at h
    · split at h
      · right
        have he := Except.ok.inj h
        rw [← he]
      · obtain ⟨_ | kb, hk, h⟩ := lb_except_bind_ok h
        · right
          have he := Except.ok.inj h
          rw [← he]
        · dsimp only at h
          split at h
          · left
            have he := Except.ok.inj h
            rw [← he]
          · right
            have he := Except.ok.inj h
            rw [← he]
    · right
      have he := Except.ok.inj h
      rw [← he]
  · left
    have he := Except.ok.inj h
    rw [← he]

theorem lb_parse_check_trailing_ret (len parsed : Nat) (ret : Int) :
    lb_parse_check_trailing len parsed ret = ret ∨ lb_parse_check_trailing len parsed ret = -1 := by
  unfold lb_parse_check_trailing
  split <;> simp

theorem lb_parse_check_lengths_ret (cfg : picoquic_load_balancer_config_t) (ret : Int) :
    lb_parse_check_lengths cfg ret = ret ∨ lb_parse_check_lengths cfg ret = -1 := by
  unfold lb_parse_check_lengths
  split
  · split <;> simp
  · simp

theorem lb_parse_tail_ret (len : Nat) (st : LbParseSt) :
    (lb_parse_tail len st).1 = st.2.1 ∨ (lb_parse_tail len st).1 = -1 := by
  obtain ⟨parsed, ret, cfg⟩ := st
  simp only [lb_parse_tail]
  have h1 := lb_parse_check_trailing_ret len parsed ret
  have h2 := lb_parse_check_lengths_ret cfg (lb_parse_check_trailing len parsed ret)
  show lb_parse_check_lengths cfg (lb_parse_check_trailing len parsed ret) = ret ∨ _ = -1
  omega

/-! ## Claim C8 -/

/-- C8 (amended): parser failures are not a single value, but the return
value is always one of three: for every input on which the parser returns
(no out-of-bounds read), the result is `0` (success), `-1` (grammar,
hex-key, trailing-character or length violations), or `1` (invalid
server-id hex field). -/
theorem claim_C8_amended (txt : Nat → Option Char) (len : Nat) (r : Int)
    (cfg : picoquic_load_balancer_config_t)
    (h : picoquic_lb_compat_cid_config_parse txt len = .ok (r, cfg)) :
    r = 0 ∨ r = -1 ∨ r = 1 := by
  unfold picoquic_lb_compat_cid_config_parse at h
  split at h
  · right; left
    have he := Except.ok.inj h
    have : (-1 : Int) = r := congrArg Prod.fst he
    omega
  · obtain ⟨st1, h1, h⟩ := lb_except_bind_ok h
    obtain ⟨st2, h2, h⟩ := lb_except_bind_ok h
    obtain ⟨st3, h3, h⟩ := lb_except_bind_ok h
    have he := Except.ok.inj h
    have hr : (lb_parse_tail len st3).1 = r := congrArg Prod.fst he
    have ht := lb_parse_tail_ret len st3
    have hk := lb_parse_key_ret txt len st2 st3 h3
    have hs := lb_parse_sid_ret txt len st1 st2 h2
    have hh := lb_parse_head_ret txt len st1 h1
    omega

/-- Witness for C8: on the well-formed input `0N5C-2a` the parser returns
and its return value is in the three-value range. -/
theorem claim_C8_witness :
    (0 : Int) = 0 ∨ (0 : Int) = -1 ∨ (0 : Int) = 1 :=
  claim_C8_amended (fun i => ['0', 'N', '5', 'C', '-', '2', 'a'].get? i) 7 0
    lb_cfg_clear5 (by rfl)

/-! ## Progress: the parser never reads past index `txt_length` -/

theorem lb_ok_bind {α β : Type} (a : α) (f : α → Except Unit β) :
    (Except.ok a >>= f) = f a := rfl

theorem lb_read_char_isSome {txt : Nat → Option Char} {i : Nat} (h : (txt i).isSome) :
    ∃ c, lb_read_char txt i = .ok c := by
  cases htxt : txt i with
  | none => rw [htxt] at h; exact absurd h (by simp)
  | some c => exact ⟨c, by unfold lb_read_char; rw [htxt]⟩

theorem lb_scan_decimal_progress (txt : Nat → Option Char) (len : Nat)
    (htxt : ∀ i, i ≤ len → (txt i).isSome) :
    ∀ (fuel parsed acc stored : Nat) (ret : Int), parsed ≤ len →
    ∃ out, lb_scan_decimal txt len fuel parsed acc stored ret = .ok out ∧ out.1 ≤ len := by
  intro fuel
  induction fuel with
  | zero =>
    intro parsed acc stored ret hp
    exact ⟨(parsed, acc, stored, ret), rfl, hp⟩
  | succ n ih =>
    intro parsed acc stored ret hp
    rw [lb_scan_decimal]
    by_cases hlt : parsed < len
    · rw [if_pos hlt]
      obtain ⟨c, hc⟩ := lb_read_char_isSome (htxt parsed (Nat.le_of_lt hlt))
      rw [hc, lb_ok_bind]
      try dsimp only
      by_cases hd : '0' ≤ c ∧ c ≤ '9'
      · rw [if_pos hd]
        by_cases hacc : acc * 10 + (c.toNat - 48) < 256
        · rw [if_pos hacc]
          exact ih (parsed + 1) _ _ ret (by omega)
        · rw [if_neg hacc]
          exact ⟨_, rfl, by omega⟩
      · rw [if_neg hd]
        exact ⟨_, rfl, hp⟩
    · rw [if_neg hlt]
      exact ⟨_, rfl, hp⟩

theorem lb_hex_scan_len_progress (txt : Nat → Option Char) (len start : Nat)
    (htxt : ∀ i, i ≤ len → (txt i).isSome) :
    ∀ (fuel hl : Nat), start + hl ≤ len →
    ∃ hl', lb_hex_scan_len txt len start fuel hl = .ok hl' ∧ start + hl' ≤ len := by
  intro fuel
  induction fuel with
  | zero =>
    intro hl hb
    exact ⟨hl, rfl, hb⟩
  | succ n ih =>
    intro hl hb
    rw [lb_hex_scan_len]
    by_cases hlt : start + hl < len
    · rw [if_pos hlt]
      obtain ⟨c, hc⟩ := lb_read_char_isSome (htxt (start + hl) (Nat.le_of_lt hlt))
      rw [hc, lb_ok_bind]
      try dsimp only
      by_cases hd : c ≠ '-'
      · rw [if_pos hd]
        exact ih (hl + 1) (by omega)
      · rw [if_neg hd]
        exact ⟨hl, rfl, hb⟩
    · rw [if_neg hlt]
      exact ⟨hl, rfl, hb⟩

theorem lb_hex_pairs_progress (txt : Nat → Option Char) (len : Nat)
    (htxt : ∀ i, i ≤ len → (txt i).isSome) :
    ∀ (fuel i : Nat) (acc : List Nat), i + 2 * fuel ≤ len →
    ∃ o, lb_hex_pairs txt fuel i acc = .ok o := by
  intro fuel
  induction fuel with
  | zero =>
    intro i acc _
    exact ⟨some acc.reverse, rfl⟩
  | succ n ih =>
    intro i acc hb
    rw [lb_hex_pairs]
    obtain ⟨c1, hc1⟩ := lb_read_char_isSome (htxt i (by omega))
    obtain ⟨c2, hc2⟩ := lb_read_char_isSome (htxt (i + 1) (by omega))
    rw [hc1, lb_ok_bind]
    try dsimp only
    rw [hc2, lb_ok_bind]
    try dsimp only
    cases h1 : lb_hex_digit c1 with
    | none => exact ⟨none, rfl⟩
    | some a =>
      cases h2 : lb_hex_digit c2 with
      | none => exact ⟨none, rfl⟩
      | some b => exact ih (i + 2) _ (by omega)

theorem lb_parse_hexa_progress (txt : Nat → Option Char) (len start L output_max : Nat)
    (htxt : ∀ i, i ≤ len → (txt i).isSome) (hL : start + L ≤ len) :
    ∃ o, picoquic_parse_hexa txt start L output_max = .ok o := by
  unfold picoquic_parse_hexa
  split
  · exact ⟨none, rfl⟩
  · exact lb_hex_pairs_progress txt len htxt (L / 2) start [] (by omega)

theorem lb_parse_method_progress (txt : Nat → Option Char) (len : Nat)
    (htxt : ∀ i, i ≤ len → (txt i).isSome) (parsed : Nat)
    (cfg : picoquic_load_balancer_config_t) (ret : Int) (hp : parsed ≤ len) :
    ∃ out, lb_parse_method txt len parsed cfg ret = .ok out ∧ out.1 ≤ len := by
  unfold lb_parse_method
  by_cases hg : len ≤ parsed
  · rw [if_pos hg]
    exact ⟨_, rfl, hp⟩
  · rw [if_neg hg]
    by_cases hr : ret = 0
    · rw [if_pos hr]
      obtain ⟨c, hc⟩ := lb_read_char_isSome (htxt parsed hp)
      rw [hc, lb_ok_bind]
      try dsimp only
      by_cases h1 : c = 'c' ∨ c = 'C'
      · rw [if_pos h1]
        exact ⟨_, rfl, by omega⟩
      · rw [if_neg h1]
        by_cases h2 : c = 's' ∨ c = 'S'
        · rw [if_pos h2]
          obtain ⟨⟨p2, a2, s2, r2⟩, hscan, hb⟩ :=
            lb_scan_decimal_progress txt len htxt (len - (parsed + 1)) (parsed + 1) 0 0 ret
              (by omega)
          rw [hscan, lb_ok_bind]
          try dsimp only
          have hb' : p2 ≤ len := hb
          exact ⟨_, rfl, hb'⟩
        · rw [if_neg h2]
          by_cases h3 : c = 'b' ∨ c = 'B'
          · rw [if_pos h3]
            exact ⟨_, rfl, by omega⟩
          · rw [if_neg h3]
            exact ⟨_, rfl, by omega⟩
    · rw [if_neg hr]
      exact ⟨_, rfl, hp⟩

theorem lb_parse_head_rest_progress (txt : Nat → Option Char) (len : Nat)
    (htxt : ∀ i, i ≤ len → (txt i).isSome) (ret : Int)
    (cfg : picoquic_load_balancer_config_t) (h2 : 2 ≤ len) :
    ∃ st, lb_parse_head_rest txt len ret cfg = .ok st := by
  unfold lb_parse_head_rest
  obtain ⟨⟨p1, a1, s1, r1⟩, hscan, hb1⟩ :=
    lb_scan_decimal_progress txt len htxt (len - 2) 2 0 0 ret h2
  rw [hscan, lb_ok_bind]
  try dsimp only
  have hb1' : p1 ≤ len := hb1
  obtain ⟨⟨p2, cfg2, r2⟩, hmeth, hb2⟩ :=
    lb_parse_method_progress txt len htxt p1 _ r1 hb1'
  rw [hmeth, lb_ok_bind]
  try dsimp only
  have hb2' : p2 ≤ len := hb2
  obtain ⟨ch, hch⟩ := lb_read_char_isSome (htxt p2 hb2')
  rw [hch, lb_ok_bind]
  try dsimp only
  by_cases hd : ch = '-'
  · rw [if_pos hd]
    exact ⟨_, rfl⟩
  · rw [if_neg hd]
    exact ⟨_, rfl⟩

theorem lb_parse_head_progress (txt : Nat → Option Char) (len : Nat)
    (htxt : ∀ i, i ≤ len → (txt i).isSome) (h4 : 4 ≤ len) :
    ∃ st, lb_parse_head txt len = .ok st := by
  unfold lb_parse_head
  obtain ⟨c0, hc0⟩ := lb_read_char_isSome (htxt 0 (by omega))
  rw [hc0, lb_ok_bind]
  try dsimp only
  obtain ⟨c1, hc1⟩ := lb_read_char_isSome (htxt 1 (by omega))
  rw [hc1, lb_ok_bind]
  try dsimp only
  exact lb_parse_head_rest_progress txt len htxt _ _ (by omega)

theorem lb_hex_pairs_some_length (txt : Nat → Option Char) :
    ∀ (fuel i : Nat) (acc l : List Nat), lb_hex_pairs txt fuel i acc = .ok (some l) →
    l.length = fuel + acc.length := by
  intro fuel
  induction fuel with
  | zero =>
    intro i acc l h
    have he := Except.ok.inj h
    have he2 : acc.reverse = l := Option.some.inj he
    rw [← he2]
    simp
  | succ n ih =>
    intro i acc l h
    rw [lb_hex_pairs] at h
    obtain ⟨c1, hc1, h⟩ := lb_except_bind_ok h
    obtain ⟨c2, hc2, h⟩ := lb_except_bind_ok h
    cases h1 : lb_hex_digit c1 with
    | none =>
      rw [h1] at h
      dsimp only at h
      have he : (none : Option (List Nat)) = some l := Except.ok.inj h
      exact Option.noConfusion he
    | some a =>
      cases h2 : lb_hex_digit c2 with
      | none =>
        rw [h1, h2] at h
        dsimp only at h
        have he : (none : Option (List Nat)) = some l := Except.ok.inj h
        exact Option.noConfusion he
      | some b =>
        rw [h1, h2] at h
        dsimp only at h
        have := ih (i + 2) ((a * 16 + b) :: acc) l h
        simp at this
        omega

theorem lb_parse_hexa_some_length (txt : Nat → Option Char) (start L output_max : Nat)
    (l : List Nat) (h : picoquic_parse_hexa txt start L output_max = .ok (some l)) :
    2 * l.length ≤ L := by
  unfold picoquic_parse_hexa at h
  split at h
  · have he : (none : Option (List Nat)) = some l := Except.ok.inj h
    exact Option.noConfusion he
  · have := lb_hex_pairs_some_length txt (L / 2) start [] l h
    simp at this
    omega

theorem lb_parse_sid_progress (txt : Nat → Option Char) (len : Nat)
    (htxt : ∀ i, i ≤ len → (txt i).isSome) (st : LbParseSt) :
    ∃ st', lb_parse_sid txt len st = .ok st' ∧ (st'.2.1 = 0 → st'.1 ≤ len) := by
  obtain ⟨parsed, ret, cfg⟩ := st
  simp only [lb_parse_sid]
  by_cases hg : len ≤ parsed
  · rw [if_pos hg]
    exact ⟨_, rfl, fun h0 => absurd (show (-1 : Int) = 0 from h0) (by decide)⟩
  · rw [if_neg hg]
    by_cases hr : ret = 0
    · rw [if_pos hr]
      obtain ⟨hl', hscan, hbl⟩ :=
        lb_hex_scan_len_progress txt len parsed htxt (len - parsed) 0 (by omega)
      rw [hscan, lb_ok_bind]
      try dsimp only
      obtain ⟨_ | bs, hhexa⟩ :=
        lb_parse_hexa_progress txt len parsed hl' 8 htxt hbl
      · rw [hhexa, lb_ok_bind]
        try dsimp only
        exact ⟨_, rfl, fun h0 => absurd (show (1 : Int) = 0 from h0) (by decide)⟩
      · rw [hhexa, lb_ok_bind]
        try dsimp only
        by_cases hbs : bs.length = 0 ∨ bs.length > 255
        · rw [if_pos hbs]
          exact ⟨_, rfl, fun h0 => absurd (show (1 : Int) = 0 from h0) (by decide)⟩
        · rw [if_neg hbs]
          refine ⟨_, rfl, fun _ => ?_⟩
          have hbsl := lb_parse_hexa_some_length txt parsed hl' 8 bs hhexa
          show parsed + 2 * bs.length ≤ len
          omega
    · rw [if_neg hr]
      exact ⟨_, rfl, fun h0 => absurd h0 hr⟩

theorem lb_parse_key_progress (txt : Nat → Option Char) (len : Nat)
    (htxt : ∀ i, i ≤ len → (txt i).isSome) (st : LbParseSt)
    (hin : st.2.1 = 0 → st.1 ≤ len) :
    ∃ st', lb_parse_key txt len st = .ok st' := by
  obtain ⟨parsed, ret, cfg⟩ := st
  have hin' : ret = 0 → parsed ≤ len := hin
  simp only [lb_parse_key]
  by_cases hg : ret = 0 ∧ (cfg.method = picoquic_load_balancer_cid_stream_cipher ∨
      cfg.method = picoquic_load_balancer_cid_block_cipher)
  · rw [if_pos hg]
    obtain ⟨ch, hch⟩ := lb_read_char_isSome (htxt parsed (hin' hg.1))
    rw [hch, lb_ok_bind]
    try dsimp only
    by_cases hd : ch = '-'
    · rw [if_pos hd]
      by_cases h32 : len < parsed + 1 + 32
      · rw [if_pos h32]
        exact ⟨_, rfl⟩
      · rw [if_neg h32]
        obtain ⟨_ | kb, hk⟩ :=
          lb_parse_hexa_progress txt len (parsed + 1) (len - (parsed + 1)) 16 htxt (by omega)
        · rw [hk, lb_ok_bind]
          try dsimp only
          exact ⟨_, rfl⟩
        · rw [hk, lb_ok_bind]
          try dsimp only
          by_cases h16 : kb.length = 16
          · rw [if_pos h16]
            exact ⟨_, rfl⟩
          · rw [if_neg h16]
            exact ⟨_, rfl⟩
    · rw [if_neg hd]
      exact ⟨_, rfl⟩
  · rw [if_neg hg]
    exact ⟨_, rfl⟩

/-! ## Claim C10 -/

/-- C10 (amended): the parser reads only characters at indices up to and
including `txt_length` (never further): in the Option-indexed embedding,
whenever the text lookup is defined on every index `i ≤ txt_length` — as
it is for a NUL-terminated C string, where index `txt_length` holds the
terminator — the parse returns without an out-of-bounds access.  The
strictly-less-than claim fails: the two unguarded hyphen checks do read
index `txt_length` on some inputs (see the counterexample on `0Y12`). -/
theorem claim_C10_amended (txt : Nat → Option Char) (len : Nat)
    (htxt : ∀ i, i ≤ len → (txt i).isSome) :
    ∃ out, picoquic_lb_compat_cid_config_parse txt len = .ok out := by
  unfold picoquic_lb_compat_cid_config_parse
  by_cases h4 : len < 4
  · rw [if_pos h4]
    exact ⟨_, rfl⟩
  · rw [if_neg h4]
    obtain ⟨st1, hh⟩ := lb_parse_head_progress txt len htxt (by omega)
    rw [hh, lb_ok_bind]
    try dsimp only
    obtain ⟨st2, hs, hpost⟩ := lb_parse_sid_progress txt len htxt st1
    rw [hs, lb_ok_bind]
    try dsimp only
    obtain ⟨st3, hk⟩ := lb_parse_key_progress txt len htxt st2 hpost
    rw [hk, lb_ok_bind]
    try dsimp only
    exact ⟨_, rfl⟩

/-- The text `0Y12` followed by a NUL-like terminator character, as a
lookup defined on indices 0..4. -/
def lb_txt_0Y12_terminated : Nat → Option Char :=
  fun i => ['0', 'Y', '1', '2', '#'].get? i

/-- Witness for C10: with the terminator readable at index 4, parsing
`0Y12` (length 4) returns without an out-of-bounds access. -/
theorem claim_C10_witness :
    (lb_parse_ret (picoquic_lb_compat_cid_config_parse lb_txt_0Y12_terminated 4)).isSome =
      true := by
  obtain ⟨⟨r, cfg⟩, h⟩ := claim_C10_amended lb_txt_0Y12_terminated 4 (by decide)
  rw [h]
  rfl

/-! ## Claim C5 -/

theorem lb_check_lengths_zero_inv (cfg : picoquic_load_balancer_config_t) (ret : Int)
    (h : lb_parse_check_lengths cfg ret = 0) (hnz : cfg.connection_id_length ≠ 0) :
    1 + cfg.server_id_length + cfg.nonce_length ≤ cfg.connection_id_length ∧
    (cfg.method = picoquic_load_balancer_cid_block_cipher →
      17 ≤ cfg.connection_id_length) := by
  unfold lb_parse_check_lengths at h
  by_cases hA : ret = 0 ∧ cfg.connection_id_length ≠ 0
  · rw [if_pos hA] at h
    by_cases hB : cfg.connection_id_length < 1 + cfg.server_id_length + cfg.nonce_length ∨
        (cfg.method = picoquic_load_balancer_cid_block_cipher ∧ cfg.connection_id_length < 17)
    · rw [if_pos hB] at h
      exact absurd h (by decide)
    · have hB' := not_or.mp hB
      refine ⟨by omega, fun hm => ?_⟩
      by_contra hlt
      exact hB'.2 ⟨hm, by omega⟩
  · rw [if_neg hA] at h
    exact absurd ⟨h, hnz⟩ hA

/-- C5 (amended): the parser enforces only the minimum-length invariants
of §3 (for a non-zero CID length, `cid_length ≥ 1 + server_id_length +
nonce_length`, and `cid_length ≥ 17` for the block cipher); the
`cid_length ≤ 20` maximum is not checked by the parser — `0Y21C-01`
parses successfully (see the counterexample) — but is enforced by
`picoquic_lb_compat_cid_config`, which rejects every configuration whose
CID length exceeds `PICOQUIC_CONNECTION_ID_MAX_SIZE`. -/
theorem claim_C5_amended :
    (∀ (txt : Nat → Option Char) (len : Nat) (r : Int)
      (cfg : picoquic_load_balancer_config_t),
      picoquic_lb_compat_cid_config_parse txt len = .ok (r, cfg) → r = 0 →
      cfg.connection_id_length ≠ 0 →
      1 + cfg.server_id_length + cfg.nonce_length ≤ cfg.connection_id_length ∧
        (cfg.method = picoquic_load_balancer_cid_block_cipher →
          17 ≤ cfg.connection_id_length)) ∧
    (∀ (quic : picoquic_quic_t) (cfg : picoquic_load_balancer_config_t) (m e d : Bool),
      PICOQUIC_CONNECTION_ID_MAX_SIZE < cfg.connection_id_length →
      (picoquic_lb_compat_cid_config quic cfg m e d).ret ≠ 0) := by
  constructor
  · intro txt len r cfg hp hr hnz
    unfold picoquic_lb_compat_cid_config_parse at hp
    split at hp
    · exfalso
      have he := Except.ok.inj hp
      have hre : (-1 : Int) = r := congrArg Prod.fst he
      omega
    · obtain ⟨st1, h1, hp⟩ := lb_except_bind_ok hp
      obtain ⟨st2, h2, hp⟩ := lb_except_bind_ok hp
      obtain ⟨⟨parsed3, ret3, cfg3⟩, h3, hp⟩ := lb_except_bind_ok hp
      have he := Except.ok.inj hp
      have hcfg : cfg3 = cfg := congrArg Prod.snd he
      have hret : lb_parse_check_lengths cfg3 (lb_parse_check_trailing len parsed3 ret3) = r :=
        congrArg Prod.fst he
      subst hcfg
      subst hr
      exact lb_check_lengths_zero_inv _ _ hret hnz
  · intro quic cfg m e d h20
    by_cases h1 : quic.cnx_list_nonempty ∧ quic.local_cnxid_length ≠ cfg.connection_id_length
    · simp [picoquic_lb_compat_cid_config, h1]
    · by_cases h2 : quic.cnx_id_callback_fn ∧ quic.cnx_id_callback_ctx.isSome
      · simp [picoquic_lb_compat_cid_config, h1, h2]
      · have hval : lb_config_validate cfg = -1 := by
          unfold lb_config_validate
          rw [if_pos h20]
        simp [picoquic_lb_compat_cid_config, h1, h2, hval]

/-- Witness for C5: the parse of `0N5C-2a` yields `lb_cfg_clear5`, whose
lengths satisfy the minimum-length invariants. -/
theorem claim_C5_witness :
    1 + lb_cfg_clear5.server_id_length + lb_cfg_clear5.nonce_length ≤
      lb_cfg_clear5.connection_id_length ∧
    (lb_cfg_clear5.method = picoquic_load_balancer_cid_block_cipher →
      17 ≤ lb_cfg_clear5.connection_id_length) :=
  claim_C5_amended.1 (fun i => ['0', 'N', '5', 'C', '-', '2', 'a'].get? i) 7 0
    lb_cfg_clear5 (by rfl) rfl (by decide)

end PicoquicLb
